import Mathlib

/-!
Verification of the dub-re-transactions pipeline (CSV merging, address
cleaning, geocoding with a JSON cache, and planning-case scraping).

Strings are modelled as `List Char`; Python floats are modelled as `ℚ`;
fallible operations are modelled with `Option`/`Except`.  Each Python
regular-expression substitution used by the source is embedded as an
executable function on character lists that mirrors the semantics of that
specific pattern (left-to-right scanning, whole-word `\b` boundaries,
greedy matching with backtracking where the pattern needs it).
-/

namespace DubRe

/-! ### ASCII character classes (Python `re` classes, ASCII range) -/

/-- Class `[A-Z]`. -/
def isUpperA (c : Char) : Bool := 65 ≤ c.toNat && c.toNat ≤ 90

/-- Class `[a-z]`. -/
def isLowerA (c : Char) : Bool := 97 ≤ c.toNat && c.toNat ≤ 122

/-- Class `[0-9]`. -/
def isDigitA (c : Char) : Bool := 48 ≤ c.toNat && c.toNat ≤ 57

/-- Python `\w` (ASCII fragment): letters, digits, underscore. -/
def isWordChar (c : Char) : Bool := isUpperA c || isLowerA c || isDigitA c || c == '_'

/-- Python `\s` (ASCII fragment): space, tab, newline, carriage return,
vertical tab, form feed. -/
def isSpaceA (c : Char) : Bool :=
  c == ' ' || c == '\t' || c == '\n' || c == '\x0d' || c == '\x0b' || c == '\x0c'

/-- Case-insensitive character comparison, as used by `re.IGNORECASE`
(ASCII range, matching Python's `str.upper` on ASCII). -/
def eqCI (a b : Char) : Bool := a.toUpper == b.toUpper

/-- Case-sensitive character comparison (plain `re` matching). -/
def eqCS (a b : Char) : Bool := a == b

/-- A character that case-insensitively equals none of the letters
(`D`, `B`, `C`) beginning an `area_mappings` pattern, so no mapping's
match can start at it. -/
def noHeadLetters (c : Char) : Bool :=
  !eqCI 'D' c && !eqCI 'B' c && !eqCI 'C' c

/-! ### Whole-word regex substitution: `re.sub(fr'\b{pat}\b', repl, s)`

The patterns substituted this way by the source are literal words
(`DUBLIN 4`, `RD`, `BAC`, ...), so the matcher is a literal matcher with
`\b` boundary checks at both ends, scanning left to right and continuing
after each replaced match, exactly as `re.sub` does. -/

/-- Literal pattern match at the head of the text, under character
comparison `eq`. -/
def matchBy (eq : Char → Char → Bool) : List Char → List Char → Bool
  | [], _ => true
  | _ :: _, [] => false
  | p :: ps, c :: cs => eq p c && matchBy eq ps cs

/-- Boundary `\b` before the match: word-ness changes between the previous original
character (`none` at the start of the string) and the first matched one. -/
def boundaryOk (prev : Option Char) (c : Char) : Bool :=
  (match prev with
   | none => false
   | some b => isWordChar b) != isWordChar c

/-- Boundary `\b` after the match: word-ness changes between the last matched
character and the following one (end of string counts as non-word). -/
def afterOk (lastc : Char) (rest : List Char) : Bool :=
  isWordChar lastc != (match rest with
    | [] => false
    | d :: _ => isWordChar d)

/-- One `re.sub(r'\b...\b', repl, s)` pass for the non-empty literal
pattern `p :: ps`, scanning left to right.  `prev` is the original
character preceding the current position.  The `fuel` argument makes the
recursion structural; one unit is spent per scanned position, so running
with `fuel = s.length` never exhausts it (a match always consumes at
least one character). -/
def subWordFuel (eq : Char → Char → Bool) (p : Char) (ps repl : List Char) :
    Nat → Option Char → List Char → List Char
  | 0, _, s => s
  | _ + 1, _, [] => []
  | fuel + 1, prev, c :: cs =>
    if boundaryOk prev c && matchBy eq (p :: ps) (c :: cs)
        && afterOk (List.getLastD (List.take ps.length cs) c) (List.drop ps.length cs) then
      repl ++ subWordFuel eq p ps repl fuel (some (List.getLastD (List.take ps.length cs) c))
        (List.drop ps.length cs)
    else
      c :: subWordFuel eq p ps repl fuel (some c) cs

/-- Pass `re.sub(fr'\b{pat}\b', repl, s, flags=re.IGNORECASE)` for a literal
word `pat` (used by `standardize_dublin_areas`). -/
def subWordCI (pat repl s : List Char) : List Char :=
  match pat with
  | [] => s
  | p :: ps => subWordFuel eqCI p ps repl s.length none s

/-- Pass `re.sub(fr'\b{pat}\b', repl, s)` (case-sensitive; used by the
abbreviation replacements in `clean_address`). -/
def subWordCS (pat repl s : List Char) : List Char :=
  match pat with
  | [] => s
  | p :: ps => subWordFuel eqCS p ps repl s.length none s

/-! ### `standardize_dublin_areas` (csv_processor.py lines 34-52) -/

/-- The `area_mappings` dict of `standardize_dublin_areas`, in insertion
order. -/
def area_mappings : List (List Char × List Char) :=
  [("DUBLIN 1".toList, "D1".toList), ("DUBLIN 2".toList, "D2".toList),
   ("DUBLIN 3".toList, "D3".toList), ("DUBLIN 4".toList, "D4".toList),
   ("DUBLIN 5".toList, "D5".toList), ("DUBLIN 6".toList, "D6".toList),
   ("DUBLIN 7".toList, "D7".toList), ("DUBLIN 8".toList, "D8".toList),
   ("DUBLIN 9".toList, "D9".toList), ("DUBLIN 10".toList, "D10".toList),
   ("DUBLIN 11".toList, "D11".toList), ("DUBLIN 12".toList, "D12".toList),
   ("DUBLIN 13".toList, "D13".toList), ("DUBLIN 14".toList, "D14".toList),
   ("DUBLIN 15".toList, "D15".toList), ("DUBLIN 16".toList, "D16".toList),
   ("DUBLIN 17".toList, "D17".toList), ("DUBLIN 18".toList, "D18".toList),
   ("DUBLIN 20".toList, "D20".toList), ("DUBLIN 22".toList, "D22".toList),
   ("DUBLIN 24".toList, "D24".toList),
   ("BAC".toList, "Dublin".toList),
   ("BAILE ATHA CLIATH".toList, "Dublin".toList),
   ("CO DUBLIN".toList, "County Dublin".toList),
   ("CO. DUBLIN".toList, "County Dublin".toList)]

/-- Function `standardize_dublin_areas`: apply each mapping as a case-insensitive
whole-word substitution, in dict order. -/
def standardize_dublin_areas (address : List Char) : List Char :=
  area_mappings.foldl (fun a pr => subWordCI pr.1 pr.2 a) address

/-! ### Generic lemmas about the word-substitution scanner -/

/-- Last original character after scanning past `u` (or `prev` when `u`
is empty). -/
def prevA (prev : Option Char) (u : List Char) : Option Char :=
  match u.getLast? with
  | some c => some c
  | none => prev

/-- The pattern conflicts with the text within the text's available
characters (so a match starting here fails even if more text follows). -/
def cw (eq : Char → Char → Bool) : List Char → List Char → Bool
  | [], _ => false
  | _ :: _, [] => false
  | p :: ps, c :: cs => if eq p c then cw eq ps cs else true

/-- Predicate `cw` holds at every non-empty suffix of `M`: no match of the pattern
can start anywhere inside `M`, even extending past its end. -/
def cma (eq : Char → Char → Bool) (pat : List Char) : List Char → Bool
  | [] => true
  | c :: cs => cw eq pat (c :: cs) && cma eq pat cs

/-- Pointwise agreement of pattern and text of equal length. -/
def agrees (eq : Char → Char → Bool) : List Char → List Char → Bool
  | [], [] => true
  | p :: ps, c :: cs => eq p c && agrees eq ps cs
  | _, _ => false

/-- The pattern has a head character and it is an upper-case letter. -/
def headUpperA : List Char → Bool
  | [] => false
  | p :: _ => isUpperA p

/-- The mappings tried before `DUBLIN 4` in dict order. -/
def area_mappings_pre : List (List Char × List Char) :=
  [("DUBLIN 1".toList, "D1".toList), ("DUBLIN 2".toList, "D2".toList),
   ("DUBLIN 3".toList, "D3".toList)]

/-- The mappings tried after `DUBLIN 4` in dict order. -/
def area_mappings_post : List (List Char × List Char) :=
  [("DUBLIN 5".toList, "D5".toList), ("DUBLIN 6".toList, "D6".toList),
   ("DUBLIN 7".toList, "D7".toList), ("DUBLIN 8".toList, "D8".toList),
   ("DUBLIN 9".toList, "D9".toList), ("DUBLIN 10".toList, "D10".toList),
   ("DUBLIN 11".toList, "D11".toList), ("DUBLIN 12".toList, "D12".toList),
   ("DUBLIN 13".toList, "D13".toList), ("DUBLIN 14".toList, "D14".toList),
   ("DUBLIN 15".toList, "D15".toList), ("DUBLIN 16".toList, "D16".toList),
   ("DUBLIN 17".toList, "D17".toList), ("DUBLIN 18".toList, "D18".toList),
   ("DUBLIN 20".toList, "D20".toList), ("DUBLIN 22".toList, "D22".toList),
   ("DUBLIN 24".toList, "D24".toList),
   ("BAC".toList, "Dublin".toList),
   ("BAILE ATHA CLIATH".toList, "Dublin".toList),
   ("CO DUBLIN".toList, "County Dublin".toList),
   ("CO. DUBLIN".toList, "County Dublin".toList)]

/-! ### `clean_price` (csv_processor.py lines 26-31) -/

/-- Numeric value of a digit string (the digits of `float(number)`). -/
def natOfDigits (ds : List Char) : ℕ :=
  ds.foldl (fun n c => 10 * n + (c.toNat - 48)) 0

/-- Call `float(number)` applied to the digit-only string `number`: raises
(`none`) exactly on the empty string, otherwise the denoted value.
Real-number values stand in for Python floats. -/
def parseDigits (ds : List Char) : Option ℚ :=
  if ds.isEmpty then none else some (natOfDigits ds)

/-- Function `clean_price`: `re.sub(r'[^0-9]', '', str(price_str))`, then
`float(number) / 100`, with every exception mapped to `None`.  The input
is the string form `str(price_str)` of the argument. -/
def clean_price (s : List Char) : Option ℚ :=
  (parseDigits (s.filter isDigitA)).map (fun q => q / 100)

/-! ### `merge_csv_files` (merger.py lines 4-48)

A CSV file on disk is modelled by its name together with the outcome of
reading it: `none` when `pd.read_csv` raises, `some rows` otherwise.  Row
contents are irrelevant to the merger, so the row type is a parameter.
`pd.concat(dfs, axis=0, ignore_index=True)` is row-wise concatenation
with a fresh `0..n-1` index (`List.enum`), and `to_csv` may itself fail
(`writeOk = false`), which the outer `except` turns into `False`. -/

/-- Result of `merge_csv_files`: the returned boolean and the merged file
written to disk (with its fresh row index), if any. -/
structure MergeOut (α : Type) where
  ret : Bool
  written : Option (List (ℕ × α))
  deriving DecidableEq, Repr

/-- Function `merge_csv_files input_directory output_file`: glob the directory
(`files` is the glob result, in order), skip unreadable files, vertically
concatenate the rest with a fresh index, and write the result. -/
def merge_csv_files {α : Type} (files : List (List Char × Option (List α)))
    (writeOk : Bool) : MergeOut α :=
  if files.isEmpty then ⟨false, none⟩
  else
    let dfs := files.filterMap Prod.snd
    if dfs.isEmpty then ⟨false, none⟩
    else
      let merged := dfs.flatten
      if writeOk then ⟨true, some merged.enum⟩ else ⟨false, none⟩

/-! ### Scraper deduplication (scrapping_board_na_pleanala.py lines 104-135) -/

/-- One scraped planning case, with the fields the scraper extracts. -/
structure Case where
  type : List Char
  title : List Char
  reference : List Char
  status : List Char
  description : List Char
  date_lodged : List Char
  date_signed : List Char
  eiar : List Char
  nis : List Char
  parties : List Char
  deriving DecidableEq, Repr

/-- Call `df.drop_duplicates(subset=['reference'])`: keep the first occurrence
of each `reference` value, in order.  `seen` is the set of reference
values already kept. -/
def dedupAux (seen : List (List Char)) : List Case → List Case
  | [] => []
  | c :: cs =>
    if seen.contains c.reference then dedupAux seen cs
    else c :: dedupAux (c.reference :: seen) cs

/-- Call `df.drop_duplicates(subset=['reference'])` on the scraped cases. -/
def dedupByReference (cases : List Case) : List Case :=
  dedupAux [] cases

/-- The planning-cases CSV as it stands when the scraper's `main`
completes: nothing is saved when no cases were scraped; otherwise
`save_to_csv` writes all cases and the CSV is rewritten deduplicated only
when duplicates were found. -/
def scraper_final_csv (cases : List Case) : Option (List Case) :=
  if cases.isEmpty then none
  else
    let dfu := dedupByReference cases
    some (if dfu.length < cases.length then dfu else cases)

/-- Sample file list for the merger: one unreadable file among readable
ones. -/
def demo_files : List (List Char × Option (List ℕ)) :=
  [("a.csv".toList, some [10]), ("bad.csv".toList, none),
   ("b.csv".toList, some [20, 30])]

/-- Sample scraped cases: the first and third share a reference. -/
def demo_case_a : Case :=
  ⟨"HA".toList, "first".toList, "A1".toList, "open".toList, "d1".toList,
   "2024-01-01".toList, "".toList, "No".toList, "No".toList, "p1".toList⟩

def demo_case_b : Case :=
  ⟨"HA".toList, "second".toList, "B2".toList, "open".toList, "d2".toList,
   "2024-01-02".toList, "".toList, "No".toList, "No".toList, "p2".toList⟩

def demo_case_a2 : Case :=
  ⟨"HA".toList, "dup of first".toList, "A1".toList, "closed".toList, "d3".toList,
   "2024-01-03".toList, "".toList, "No".toList, "No".toList, "p3".toList⟩

def demo_cases : List Case := [demo_case_a, demo_case_b, demo_case_a2]

/-! ### A small regex engine for the `clean_address` prefix patterns

The three prefix regexes of `clean_address` mix literals, alternation,
`\s*`, `\.?`, `\d+` and `[A-Z]?`.  They are embedded as item sequences
with Python's leftmost, greedy-with-backtracking semantics: each item
yields its candidate remainders in priority order (longest first for
`*`/`+`, alternatives in written order), and the sequence matcher takes
the first candidate under which the rest of the sequence matches. -/

/-- One regex item: a (case-insensitive) literal, an alternation of
literals, `cls*`, `cls+`, or `cls?`. -/
inductive RItem where
  | lit (cs : List Char)
  | alts (ls : List (List Char))
  | star (cls : Char → Bool)
  | plus (cls : Char → Bool)
  | opt (cls : Char → Bool)

/-- Case-insensitive prefix test (`re.IGNORECASE` literal matching). -/
def isPrefixOfCI : List Char → List Char → Bool
  | [], _ => true
  | _ :: _, [] => false
  | a :: as, b :: bs => eqCI a b && isPrefixOfCI as bs

/-- Length of the maximal run of `cls` characters at the head. -/
def takeRun (cls : Char → Bool) : List Char → Nat
  | [] => 0
  | c :: cs => if cls c then takeRun cls cs + 1 else 0

/-- Candidate remainders after matching one item, in backtracking
priority order. -/
def matchItem : RItem → List Char → List (List Char)
  | .lit l, s => if isPrefixOfCI l s then [s.drop l.length] else []
  | .alts ls, s =>
    ls.filterMap (fun l => if isPrefixOfCI l s then some (s.drop l.length) else none)
  | .star cls, s => (List.range (takeRun cls s + 1)).reverse.map (fun k => s.drop k)
  | .plus cls, s =>
    ((List.range (takeRun cls s + 1)).reverse.map (fun k => s.drop k)).dropLast
  | .opt cls, s =>
    match s with
    | [] => [[]]
    | c :: cs => if cls c then [cs, c :: cs] else [c :: cs]

/-- Match an item sequence at the head of `s`, returning the remainder of
the first (leftmost-greedy) successful parse. -/
def matchSeq : List RItem → List Char → Option (List Char)
  | [], s => some s
  | it :: its, s => (matchItem it s).findSome? (fun s' => matchSeq its s')

/-- Class `[A-Z]` under `re.IGNORECASE` (matches either case). -/
def isAlphaA (c : Char) : Bool := isUpperA c || isLowerA c

/-- Pattern `^(APT|APARTMENT|UNIT|NO\.|FLAT)\s*\.?\s*\d+\s*,?\s*`. -/
def prefix_pattern1 : List RItem :=
  [.alts ["APT".toList, "APARTMENT".toList, "UNIT".toList, "NO.".toList, "FLAT".toList],
   .star isSpaceA, .opt (· == '.'), .star isSpaceA, .plus isDigitA,
   .star isSpaceA, .opt (· == ','), .star isSpaceA]

/-- Pattern `^\d+[A-Z]?\s*,?\s*`. -/
def prefix_pattern2 : List RItem :=
  [.plus isDigitA, .opt isAlphaA, .star isSpaceA, .opt (· == ','), .star isSpaceA]

/-- Pattern `APT\.?\s*\d+\s*-?\s*` (not anchored). -/
def apt_pattern : List RItem :=
  [.lit "APT".toList, .opt (· == '.'), .star isSpaceA, .plus isDigitA,
   .star isSpaceA, .opt (· == '-'), .star isSpaceA]

/-- Pattern `\s+,\s+`. -/
def space_comma_pattern : List RItem :=
  [.plus isSpaceA, .lit ",".toList, .plus isSpaceA]

/-- Pattern `\s+`. -/
def spaces_pattern : List RItem :=
  [.plus isSpaceA]

/-- Call `re.sub('^pat', '', s)`: with an anchor and no MULTILINE the pattern
is removed at most once, at position 0. -/
def removeAnchored (pat : List RItem) (s : List Char) : List Char :=
  match matchSeq pat s with
  | some rest => rest
  | none => s

/-- Unanchored `re.sub(pat, repl, s)`: scan left to right, replacing each
non-overlapping match and continuing after it.  None of the source's
patterns can match the empty string, so a match always consumes at least
one character; the length guard makes that explicit for the fuel-based
recursion. -/
def reSubAllFuel (pat : List RItem) (repl : List Char) : Nat → List Char → List Char
  | 0, s => s
  | _ + 1, [] => []
  | fuel + 1, c :: cs =>
    match matchSeq pat (c :: cs) with
    | some rest =>
      if rest.length < cs.length + 1 then repl ++ reSubAllFuel pat repl fuel rest
      else c :: reSubAllFuel pat repl fuel cs
    | none => c :: reSubAllFuel pat repl fuel cs

/-- Call `re.sub(pat, repl, s)` for an unanchored pattern. -/
def reSubAll (pat : List RItem) (repl s : List Char) : List Char :=
  reSubAllFuel pat repl s.length s

/-! ### `clean_address` (csv_processor.py lines 55-105) -/

/-- A Python value passed to `clean_address` / `clean_price`: a string,
or anything that is not a string (`NaN`, `None`, a number, ...). -/
inductive PyObj where
  | str (s : List Char)
  | nonstr
  deriving DecidableEq, Repr

/-- Python `address.upper()` (ASCII model). -/
def upperStr (s : List Char) : List Char := s.map Char.toUpper

/-- Python `'pat' in s` (case-sensitive substring test). -/
def containsStr (s pat : List Char) : Bool :=
  s.tails.any (fun t => pat.isPrefixOf t)

/-- Python `s.title()` (ASCII model): a letter is upper-cased after a
non-letter (digits are uncased) and lower-cased after a letter; the flag
carries whether the previous character was a letter. -/
def titleCase : Bool → List Char → List Char
  | _, [] => []
  | prevAlpha, c :: cs =>
    (if isAlphaA c then (if prevAlpha then c.toLower else c.toUpper) else c)
      :: titleCase (isAlphaA c) cs

/-- The `replacements` dict of `clean_address`, in insertion order
(substituted case-sensitively: the address is already upper-case). -/
def replacements : List (List Char × List Char) :=
  [("RD".toList, "ROAD".toList), ("ST".toList, "STREET".toList),
   ("AVE".toList, "AVENUE".toList), ("APTS".toList, "APARTMENTS".toList),
   ("DR".toList, "DRIVE".toList), ("LN".toList, "LANE".toList),
   ("CT".toList, "COURT".toList), ("CRES".toList, "CRESCENT".toList),
   ("SQ".toList, "SQUARE".toList), ("PK".toList, "PARK".toList),
   ("GDNS".toList, "GARDENS".toList), ("APT".toList, "APARTMENT".toList)]

/-- The literal eight-character string `D\d\x7b1,2\x7d` that the source
types (unescaped) in `'D\d{1,2}' not in address`: a plain substring
check, not a regex. -/
def d_digit_literal : List Char := "D\\d\x7b1,2\x7d".toList

/-- Function `clean_address`: returns `""` for non-strings; otherwise upper-cases,
removes the three prefix patterns, substitutes the abbreviation map with
`\b` boundaries, tidies commas and whitespace, standardizes Dublin areas,
appends `, DUBLIN` / `, IRELAND` when missing, and title-cases. -/
def clean_address (v : PyObj) : List Char :=
  match v with
  | .nonstr => []
  | .str address0 =>
    let a1 := upperStr address0
    let a2 := removeAnchored prefix_pattern1 a1
    let a3 := removeAnchored prefix_pattern2 a2
    let a4 := reSubAll apt_pattern [] a3
    let a5 := replacements.foldl (fun a pr => subWordCS pr.1 pr.2 a) a4
    let a6 := reSubAll space_comma_pattern ", ".toList a5
    let a7 := reSubAll spaces_pattern " ".toList a6
    let a8 := standardize_dublin_areas a7
    let a9 := if !containsStr a8 "DUBLIN".toList && !containsStr a8 d_digit_literal
      then a8 ++ ", DUBLIN".toList else a8
    let a10 := if !containsStr a9 "IRELAND".toList
      then a9 ++ ", IRELAND".toList else a9
    titleCase false a10

/-! ### `get_coordinates` (csv_processor.py lines 108-139 and
csv_processor_cases.py lines 78-118)

Coordinates are rational pairs (standing in for floats; only order
comparisons against the bounding-box constants matter).  The external
geolocator is an oracle `List Char → Except Unit (Option (ℚ × ℚ))`:
`.error` models a raised `GeocoderTimedOut`/`GeocoderServiceError`/other
exception, `.ok none` a `None` result, `.ok (some p)` a located point.
External activity is recorded in an event trace. -/

/-- An externally visible event: a `time.sleep`, a geocoder query, or an
HTTP GET. -/
inductive Ev where
  | sleep (secs : ℕ)
  | geocode (q : List Char)
  | httpGet (u : List Char)
  deriving DecidableEq, Repr

/-- The geolocator oracle. -/
abbrev Geocoder : Type := List Char → Except Unit (Option (ℚ × ℚ))

/-- csv_processor.py lines 127-128: the hardcoded Dublin bounding box. -/
def dublin_box (lat lon : ℚ) : Bool :=
  decide (52.9 ≤ lat ∧ lat ≤ 53.7 ∧ -6.5 ≤ lon ∧ lon ≤ -6.0)

/-- csv_processor_cases.py lines 108-109: the expanded greater-Dublin
bounding box. -/
def dublin_box_cases (lat lon : ℚ) : Bool :=
  decide (52.8 ≤ lat ∧ lat ≤ 53.8 ∧ -6.6 ≤ lon ∧ lon ≤ -5.9)

/-- Call `re.sub(r',.*Dublin', ', Dublin', addr)`: split at the first comma,
returning the part before it and the remainder starting with the
comma. -/
def firstCommaSplit : List Char → Option (List Char × List Char)
  | [] => none
  | c :: cs =>
    if c = ',' then some ([], c :: cs)
    else (firstCommaSplit cs).map (fun pr => (c :: pr.1, pr.2))

/-- Split before the last occurrence of `"Dublin"`, if any. -/
def lastDublinStart : List Char → Option (List Char × List Char)
  | [] => none
  | c :: cs =>
    match lastDublinStart cs with
    | some pr => some (c :: pr.1, pr.2)
    | none =>
      if "Dublin".toList.isPrefixOf (c :: cs) then some ([], c :: cs) else none

/-- Second try of `get_coordinates`: `re.sub(r',.*Dublin', ', Dublin',
addr)`.  The leftmost match runs from the first comma, greedily through
the last later occurrence of `Dublin`; with no such match the address is
unchanged. -/
def simplify_to_dublin (s : List Char) : List Char :=
  match firstCommaSplit s with
  | none => s
  | some (pre, rest) =>
    match lastDublinStart (rest.drop 1) with
    | none => s
    | some (_, suf) => pre ++ ", Dublin".toList ++ suf.drop 6

/-- Third try of `get_coordinates`:
`re.match(r'^([^,]+,[^,]+)', addr).group(1) + ', Dublin, Ireland'`.
`none` models the `AttributeError` raised when the regex does not match
(caught by the bare `except`). -/
def first_two_parts (s : List Char) : Option (List Char) :=
  let a := s.takeWhile (fun c => c ≠ ',')
  if a.isEmpty then none
  else
    match s.drop a.length with
    | [] => none
    | _ :: rest2 =>
      let b := rest2.takeWhile (fun c => c ≠ ',')
      if b.isEmpty then none
      else some (a ++ [','] ++ b ++ ", Dublin, Ireland".toList)

/-- The `tries` list of csv_processor.py's `get_coordinates`: each entry
maps the cleaned address to the query actually sent, or `none` when the
modifier itself raises. -/
def tries_csv : List (List Char → Option (List Char)) :=
  [fun addr => some addr,
   fun addr => some (simplify_to_dublin addr),
   fun addr => first_two_parts addr]

/-- The retry loop shared by both `get_coordinates` functions: for each
query modifier in turn, compute the query (skipping the attempt when the
modifier raises), sleep one second, call the geolocator, and return the
first result inside `box`; exceptions and out-of-box results continue
with the next attempt. -/
def geocodeLoop (box : ℚ → ℚ → Bool) (geocode : Geocoder) (cleaned : List Char) :
    List (List Char → Option (List Char)) → Option (ℚ × ℚ) × List Ev
  | [] => (none, [])
  | m :: ms =>
    match m cleaned with
    | none => geocodeLoop box geocode cleaned ms
    | some q =>
      match geocode q with
      | .error _ =>
        let r := geocodeLoop box geocode cleaned ms
        (r.1, Ev.sleep 1 :: Ev.geocode q :: r.2)
      | .ok none =>
        let r := geocodeLoop box geocode cleaned ms
        (r.1, Ev.sleep 1 :: Ev.geocode q :: r.2)
      | .ok (some (lat, lon)) =>
        if box lat lon then (some (lat, lon), [Ev.sleep 1, Ev.geocode q])
        else
          let r := geocodeLoop box geocode cleaned ms
          (r.1, Ev.sleep 1 :: Ev.geocode q :: r.2)

/-- csv_processor.py `get_coordinates`: the address is cleaned with
`clean_address` and the three `tries` rewrites are attempted in order
against the Dublin bounding box; `(None, None)` (`none`) when all fail. -/
def get_coordinates (geocode : Geocoder) (address : PyObj) :
    Option (ℚ × ℚ) × List Ev :=
  geocodeLoop dublin_box geocode (clean_address address) tries_csv

/-- csv_processor_cases.py `get_coordinates`: the `address_variants` list
(built up front from `clean_address_for_planning` output at lines 83-98,
abstracted here as the `variants` parameter) is tried in order against
the expanded bounding box. -/
def get_coordinates_cases (geocode : Geocoder) (variants : List (List Char)) :
    Option (ℚ × ℚ) × List Ev :=
  geocodeLoop dublin_box_cases geocode [] (variants.map (fun q _ => some q))

/-- The specification-side description of the retry loop ("returns the
latitude/longitude of the first attempt whose geocoding result lies
inside the hardcoded bounding box"), written from the spec's words over
the list of queries actually attempted. -/
def first_in_box (box : ℚ → ℚ → Bool) (geocode : Geocoder) :
    List (List Char) → Option (ℚ × ℚ)
  | [] => none
  | q :: qs =>
    match geocode q with
    | .ok (some (lat, lon)) =>
      if box lat lon then some (lat, lon) else first_in_box box geocode qs
    | _ => first_in_box box geocode qs

/-- The queries a run of `geocodeLoop` sends, in order. -/
def loopQueries (cleaned : List Char)
    (ms : List (List Char → Option (List Char))) : List (List Char) :=
  ms.filterMap (fun m => m cleaned)

/-- scrapping_board_na_pleanala.py lines 119-123: `main` fetches each URL
in turn (one `requests.get` inside `scrape_cases_from_url`) and sleeps
two seconds after each fetch. -/
def scraper_main_trace (urls : List (List Char)) : List Ev :=
  (urls.map (fun u => [Ev.httpGet u, Ev.sleep 2])).flatten

/-- Sample geolocator: always locates the query at `(53, -25/4)`. -/
def demo_geocoder : Geocoder := fun _ => .ok (some (53, -25/4))

/-! ### The geocoding loops of `process_csv` (csv_processor.py lines
164-185) and `process_planning_cases` (csv_processor_cases.py lines
134-165)

The cache is the JSON mapping from raw (uncleaned) address string to a
possibly-null coordinate pair, modelled as an association list in
insertion order.  A run records the final cache, which addresses were
passed to `get_coordinates`, and every snapshot handed to `save_cache`
(each snapshot is the whole current mapping, as `json.dump(cache, f)`
writes it). -/

/-- The persisted geocode cache: raw address string to possibly-null
latitude/longitude pair. -/
abbrev Cache : Type := List (List Char × Option (ℚ × ℚ))

/-- Python dict assignment `cache[address] = coords`: update in place if
the key exists, else append. -/
def dictSet (cache : Cache) (k : List Char) (v : Option (ℚ × ℚ)) : Cache :=
  if (cache.lookup k).isSome then
    cache.map (fun pr => if pr.1 == k then (pr.1, v) else pr)
  else cache ++ [(k, v)]

/-- Model of `list(set(column.unique()) - set(cache.keys()))`, with first-seen
order standing in for Python's unspecified set iteration order (no claim
depends on the order). -/
def dedup_addresses (seen : List (List Char)) : List (List Char) → List (List Char)
  | [] => []
  | a :: as =>
    if seen.contains a then dedup_addresses seen as
    else a :: dedup_addresses (a :: seen) as

/-- Outcome of the geocoding loop: the in-memory cache when the loop
ends, the addresses passed to `get_coordinates`, and the successive
whole-cache snapshots written by `save_cache`. -/
structure GeoRun where
  cache : Cache
  calls : List (List Char)
  saves : List Cache
  deriving Repr

/-- The loop `for address in unique_addresses: if address and address not
in cache: cache[address] = get_coordinates(...); save_cache(cache)`.
`results` abstracts `get_coordinates(address, geolocator)`. -/
def geocode_addresses (results : List Char → Option (ℚ × ℚ)) :
    Cache → List (List Char) → GeoRun
  | cache, [] => ⟨cache, [], []⟩
  | cache, a :: as =>
    if a ≠ [] ∧ (cache.lookup a).isNone then
      let cache2 := dictSet cache a (results a)
      let rest := geocode_addresses results cache2 as
      ⟨rest.cache, a :: rest.calls, cache2 :: rest.saves⟩
    else
      let rest := geocode_addresses results cache as
      ⟨rest.cache, rest.calls, rest.saves⟩

/-- The geocoding phase of `process_csv`: deduplicate the `Address`
column, drop addresses already cached, and run the loop with
csv_processor.py's `get_coordinates`. -/
def process_csv_geocoding (geocode : Geocoder) (cache0 : Cache)
    (addresses : List (List Char)) : GeoRun :=
  geocode_addresses (fun a => (get_coordinates geocode (.str a)).1) cache0
    ((dedup_addresses [] addresses).filter (fun a => (cache0.lookup a).isNone))

/-- The geocoding phase of `process_planning_cases`: column B with
`dropna()`, deduplicated, minus cached keys; `results` abstracts that
file's `get_coordinates` (whose variants come from
`clean_address_for_planning`). -/
def process_planning_geocoding (results : List Char → Option (ℚ × ℚ))
    (cache0 : Cache) (addresses : List (Option (List Char))) : GeoRun :=
  geocode_addresses results cache0
    ((dedup_addresses [] (addresses.filterMap id)).filter
      (fun a => (cache0.lookup a).isNone))

/-- The coordinate-update phase (lines 182-185): each row looks its
address up in the final cache; `none` means the row's coordinates never
left their `None` initialization. -/
def updateRows (cacheF : Cache) (addresses : List (List Char)) :
    List (List Char × Option (Option (ℚ × ℚ))) :=
  addresses.map (fun a => (a, cacheF.lookup a))

/-! ### Top-level entry points `process_csv` (csv_processor.py lines
142-201) and `process_planning_cases` (csv_processor_cases.py lines
121-187)

Nothing in either function is guarded by a try/except: `pd.read_csv`
(line 145/124), `pd.to_datetime(..., format='%d/%m/%Y')` (line 152,
`process_csv` only), `load_cache` (lines 14-18, an unguarded open and
`json.load` of `geocoding_cache.json`), every in-loop `save_cache`
(line 178/154) and the final `df.to_csv` (line 200/186) all propagate
their exceptions out of the function.  `readResult = none` models a
raised read, `datesOk = false` a raised date parse, `loadedCache = none`
a raised cache load, `saveOk = false` a cache write that raises (so the
run dies at the first `save_cache` call, if the loop makes one), and
`writeOk = false` a raised output write.  Rows are modelled by their
address column, the only column the claims depend on. -/

/-- Function `process_csv input_file output_file`: read, parse dates,
load the cache, run the geocoding loop (saving after every insertion),
update the rows and write the output — none of it guarded. -/
def process_csv (readResult : Option (List (List Char))) (datesOk : Bool)
    (loadedCache : Option Cache) (geocode : Geocoder) (saveOk writeOk : Bool) :
    Except Unit (GeoRun × List (List Char × Option (Option (ℚ × ℚ)))) :=
  match readResult with
  | none => .error ()
  | some addresses =>
    if datesOk then
      match loadedCache with
      | none => .error ()
      | some cache0 =>
        let run := process_csv_geocoding geocode cache0 addresses
        if saveOk = false ∧ run.saves ≠ [] then .error ()
        else if writeOk = false then .error ()
        else .ok (run, updateRows run.cache addresses)
    else .error ()

/-- Function `process_planning_cases input_file output_file`: read, load
the cache, run the geocoding loop (saving after every insertion) and
write the output — none of it guarded. -/
def process_planning_cases (readResult : Option (List (Option (List Char))))
    (loadedCache : Option Cache) (results : List Char → Option (ℚ × ℚ))
    (saveOk writeOk : Bool) : Except Unit GeoRun :=
  match readResult with
  | none => .error ()
  | some rows =>
    match loadedCache with
    | none => .error ()
    | some cache0 =>
      let run := process_planning_geocoding results cache0 rows
      if saveOk = false ∧ run.saves ≠ [] then .error ()
      else if writeOk = false then .error ()
      else .ok run

/-! ### Helper lemmas -/

/-! ### Char lemmas -/

theorem char_toNat_ofNat (n : Nat) (h : n.isValidChar) : (Char.ofNat n).toNat = n := by
  simp [Char.ofNat, h, Char.ofNatAux, Char.toNat, UInt32.toNat, BitVec.toNat_ofNatLt]

theorem toUpper_toLower (c : Char) : (c.toLower).toUpper = c.toUpper := by
  unfold Char.toLower Char.toUpper
  by_cases h : c.toNat ≥ 65 ∧ c.toNat ≤ 90
  · have hv : (c.toNat + 32).isValidChar := by
      constructor
      omega
    have h1 : (Char.ofNat (c.toNat + 32)).toNat = c.toNat + 32 := char_toNat_ofNat _ hv
    have h2 : c.toNat + 32 ≥ 97 ∧ c.toNat + 32 ≤ 122 := by omega
    have h3 : ¬ (c.toNat ≥ 97 ∧ c.toNat ≤ 122) := by omega
    simp only [if_pos h, h1, if_pos h2, if_neg h3]
    have h4 : c.toNat + 32 - 32 = c.toNat := by omega
    rw [h4, Char.ofNat_toNat]
  · simp [h]

theorem toUpper_toUpper (c : Char) : (c.toUpper).toUpper = c.toUpper := by
  unfold Char.toUpper
  by_cases h : c.toNat ≥ 97 ∧ c.toNat ≤ 122
  · have hv : (c.toNat - 32).isValidChar := by
      constructor
      omega
    have h1 : (Char.ofNat (c.toNat - 32)).toNat = c.toNat - 32 := char_toNat_ofNat _ hv
    have h2 : ¬ (c.toNat - 32 ≥ 97 ∧ c.toNat - 32 ≤ 122) := by omega
    simp only [if_pos h, h1, if_neg h2]
  · simp [h]

/-- A character that is not a word character is fixed by `Char.toUpper`. -/
theorem toUpper_of_not_word (c : Char) (h : isWordChar c = false) : c.toUpper = c := by
  unfold Char.toUpper
  have hl : isLowerA c = false := by
    unfold isWordChar at h
    simp only [Bool.or_eq_false_iff] at h
    exact h.1.1.2
  unfold isLowerA at hl
  simp only [Bool.and_eq_false_iff, decide_eq_false_iff_not, not_le] at hl
  have : ¬ (c.toNat ≥ 97 ∧ c.toNat ≤ 122) := by omega
  simp [this]

/-- An upper-case letter is fixed by `Char.toUpper`. -/
theorem toUpper_of_upper (p : Char) (hp : isUpperA p = true) : p.toUpper = p := by
  unfold Char.toUpper
  unfold isUpperA at hp
  simp only [Bool.and_eq_true, decide_eq_true_eq] at hp
  have : ¬ (p.toNat ≥ 97 ∧ p.toNat ≤ 122) := by omega
  simp [this]

/-- An upper-case letter can never compare case-insensitively equal to a
non-word character. -/
theorem eqCI_upper_not_word (p c : Char) (hp : isUpperA p = true)
    (hc : isWordChar c = false) : eqCI p c = false := by
  unfold eqCI
  rw [toUpper_of_upper p hp, toUpper_of_not_word c hc]
  by_contra h
  simp only [Bool.not_eq_false, beq_iff_eq] at h
  subst h
  unfold isWordChar at hc
  simp [hp] at hc

theorem prevA_cons (prev : Option Char) (c : Char) (u : List Char) :
    prevA prev (c :: u) = prevA (some c) u := by
  cases u with
  | nil => rfl
  | cons d t =>
    cases hx : (d :: t).getLast? with
    | none => simp [List.getLast?_eq_none_iff] at hx
    | some x => simp [prevA, List.getLast?_cons_cons, hx]

theorem matchBy_append_false (eq : Char → Char → Bool) (pat s t : List Char)
    (h : cw eq pat s = true) : matchBy eq pat (s ++ t) = false := by
  induction pat generalizing s t with
  | nil => simp [cw] at h
  | cons p ps ih =>
    cases s with
    | nil => simp [cw] at h
    | cons c cs =>
      simp only [cw] at h
      by_cases he : eq p c = true
      · rw [if_pos he] at h
        simp [matchBy, he, ih cs t h]
      · simp only [Bool.not_eq_true] at he
        simp [matchBy, he]

theorem matchBy_of_agrees (eq : Char → Char → Bool) (pat M : List Char)
    (h : agrees eq pat M = true) (v : List Char) : matchBy eq pat (M ++ v) = true := by
  induction pat generalizing M with
  | nil => simp [matchBy]
  | cons p ps ih =>
    cases M with
    | nil => simp [agrees] at h
    | cons c cs =>
      simp only [agrees, Bool.and_eq_true] at h
      simp [matchBy, h.1, ih cs h.2]

/-- Scanning text in which the pattern head never matches leaves the text
unchanged (any fuel, any previous character). -/
theorem subWordFuel_id (eq : Char → Char → Bool) (p : Char) (ps repl : List Char)
    (v : List Char) (hv : ∀ c ∈ v, eq p c = false) :
    ∀ fuel prev, subWordFuel eq p ps repl fuel prev v = v := by
  induction v with
  | nil => intro fuel prev; cases fuel <;> rfl
  | cons c cs ih =>
    intro fuel prev
    cases fuel with
    | zero => rfl
    | succ f =>
      have hc : eq p c = false := hv c (List.mem_cons_self c cs)
      have hcs : ∀ x ∈ cs, eq p x = false := fun x hx => hv x (List.mem_cons_of_mem c hx)
      simp [subWordFuel, matchBy, hc, ih hcs f (some c)]

/-- Scanning past a prefix `u` in which the pattern head never matches
outputs `u` unchanged and continues with the rest, spending `u.length`
fuel. -/
theorem subWordFuel_append_skip (eq : Char → Char → Bool) (p : Char) (ps repl : List Char)
    (u : List Char) (hu : ∀ c ∈ u, eq p c = false) (t : List Char) :
    ∀ f prev, subWordFuel eq p ps repl (u.length + f) prev (u ++ t) =
      u ++ subWordFuel eq p ps repl f (prevA prev u) t := by
  induction u with
  | nil => intro f prev; simp [prevA]
  | cons c u' ih =>
    intro f prev
    have hc : eq p c = false := hu c (List.mem_cons_self c u')
    have hu' : ∀ x ∈ u', eq p x = false := fun x hx => hu x (List.mem_cons_of_mem c hx)
    have hlen : (c :: u').length + f = (u'.length + f) + 1 := by
      simp [List.length_cons]; omega
    rw [hlen]
    simp only [List.cons_append, subWordFuel, matchBy, hc]
    simp only [Bool.false_and, Bool.and_false, if_neg (by simp : ¬ (false = true))]
    simp only [List.append_eq]
    rw [ih hu' f (some c), prevA_cons]

/-- Scanning past a block `M` inside which no match of the pattern can
start (`cma`) outputs `M` unchanged, spending `M.length` fuel. -/
theorem subWordFuel_append_cma (eq : Char → Char → Bool) (p : Char) (ps repl : List Char)
    (M : List Char) (hM : cma eq (p :: ps) M = true) (v : List Char) :
    ∀ f prev, subWordFuel eq p ps repl (M.length + f) prev (M ++ v) =
      M ++ subWordFuel eq p ps repl f (prevA prev M) v := by
  induction M with
  | nil => intro f prev; simp [prevA]
  | cons c M' ih =>
    intro f prev
    simp only [cma, Bool.and_eq_true] at hM
    have hm : matchBy eq (p :: ps) ((c :: M') ++ v) = false :=
      matchBy_append_false eq (p :: ps) (c :: M') v hM.1
    have hlen : (c :: M').length + f = (M'.length + f) + 1 := by
      simp [List.length_cons]; omega
    rw [hlen]
    simp only [List.cons_append] at hm ⊢
    simp only [subWordFuel, hm]
    simp only [Bool.false_and, Bool.and_false, if_neg (by simp : ¬ (false = true))]
    rw [ih hM.2 f (some c), prevA_cons]

theorem mem_of_getLast?_eq {l : List Char} {b : Char} (h : l.getLast? = some b) : b ∈ l := by
  induction l with
  | nil => simp at h
  | cons a t ih =>
    cases t with
    | nil => simp_all
    | cons c t' =>
      rw [List.getLast?_cons_cons] at h
      exact List.mem_cons_of_mem a (ih h)

/-- After scanning past `u`, a word character sits at a `\\b` boundary
whenever `u` is empty or ends with a non-word character. -/
theorem boundary_of_last (u : List Char)
    (hu : u.getLast?.elim true (fun b => !isWordChar b) = true)
    (c : Char) (hc : isWordChar c = true) : boundaryOk (prevA none u) c = true := by
  unfold prevA
  cases hg : u.getLast? with
  | none => simp [boundaryOk, hc]
  | some b =>
    rw [hg] at hu
    simp only [Option.elim] at hu
    have hb : isWordChar b = false := by
      cases hw : isWordChar b
      · rfl
      · rw [hw] at hu
        simp at hu
    simp [boundaryOk, hc, hb]

/-- A word character is at a `\\b` boundary before text that is empty or
starts with a non-word character. -/
theorem afterOk_of_head (l : Char) (hl : isWordChar l = true) (v : List Char)
    (hv : v.head?.elim true (fun d => !isWordChar d) = true) : afterOk l v = true := by
  cases v with
  | nil => simp [afterOk, hl]
  | cons d t =>
    simp only [List.head?_cons, Option.elim] at hv
    have hd : isWordChar d = false := by
      cases hw : isWordChar d
      · rfl
      · rw [hw] at hv
        simp at hv
    simp [afterOk, hl, hd]

/-- Case-insensitive comparison sees only the upper-casing of the text
character. -/
theorem eqCI_congr (p c c2 : Char) (h : c.toUpper = c2.toUpper) :
    eqCI p c = eqCI p c2 := by
  unfold eqCI
  rw [h]

/-- Conflict-within is invariant under re-casing of the text. -/
theorem cw_congr (pat : List Char) :
    ∀ s s2, upperStr s = upperStr s2 → cw eqCI pat s = cw eqCI pat s2 := by
  induction pat with
  | nil => intro s s2 _; cases s <;> cases s2 <;> rfl
  | cons p ps ih =>
    intro s s2 h
    cases s with
    | nil =>
      cases s2 with
      | nil => rfl
      | cons c2 t2 => simp [upperStr] at h
    | cons c t =>
      cases s2 with
      | nil => simp [upperStr] at h
      | cons c2 t2 =>
        simp only [upperStr, List.map_cons, List.cons_eq_cons] at h
        unfold cw
        rw [eqCI_congr p c c2 h.1]
        by_cases he : eqCI p c2 = true
        · rw [if_pos he, if_pos he]
          exact ih t t2 h.2
        · rw [if_neg he, if_neg he]

/-- No-match-starting-inside is invariant under re-casing of the text. -/
theorem cma_congr (pat : List Char) :
    ∀ s s2, upperStr s = upperStr s2 → cma eqCI pat s = cma eqCI pat s2 := by
  intro s
  induction s with
  | nil =>
    intro s2 h
    cases s2 with
    | nil => rfl
    | cons c2 t2 => simp [upperStr] at h
  | cons c t ih =>
    intro s2 h
    cases s2 with
    | nil => simp [upperStr] at h
    | cons c2 t2 =>
      have hfull := h
      simp only [upperStr, List.map_cons, List.cons_eq_cons] at h
      unfold cma
      rw [cw_congr pat (c :: t) (c2 :: t2) hfull, ih t2 h.2]

/-- A text whose upper-casing equals the (upper-case) pattern agrees
with it case-insensitively. -/
theorem agrees_of_upperStr :
    ∀ (pat M : List Char), upperStr M = upperStr pat → agrees eqCI pat M = true := by
  intro pat
  induction pat with
  | nil =>
    intro M h
    cases M with
    | nil => rfl
    | cons c t => simp [upperStr] at h
  | cons p ps ih =>
    intro M h
    cases M with
    | nil => simp [upperStr] at h
    | cons c t =>
      simp only [upperStr, List.map_cons, List.cons_eq_cons] at h
      unfold agrees
      have he : eqCI p c = true := by
        unfold eqCI
        rw [h.1]
        simp
      rw [he]
      simp [ih t h.2]

/-- Upper-casing does not change word-character status. -/
theorem isWordChar_toUpper (c : Char) : isWordChar c.toUpper = isWordChar c := by
  unfold Char.toUpper
  by_cases h : c.toNat ≥ 97 ∧ c.toNat ≤ 122
  · have hv : (c.toNat - 32).isValidChar := by
      constructor
      omega
    have h1 : (Char.ofNat (c.toNat - 32)).toNat = c.toNat - 32 := char_toNat_ofNat _ hv
    simp only [if_pos h]
    have hA : isUpperA (Char.ofNat (c.toNat - 32)) = true := by
      unfold isUpperA
      rw [h1]
      simp only [Bool.and_eq_true, decide_eq_true_eq]
      omega
    have hB : isLowerA c = true := by
      unfold isLowerA
      simp only [Bool.and_eq_true, decide_eq_true_eq]
      omega
    unfold isWordChar
    rw [hA, hB]
    simp
  · simp [h]

/-- Mapping commutes with `getLastD` when the default is mapped too. -/
theorem map_getLastD (f : Char → Char) (l : List Char) :
    ∀ d, List.getLastD (l.map f) (f d) = f (List.getLastD l d) := by
  induction l with
  | nil => intro d; rfl
  | cons a t ih =>
    intro d
    simp only [List.map_cons, List.getLastD_cons]
    exact ih a

/-- A head letter of an area mapping (`D`, `B` or `C`) conflicts with
every character satisfying `noHeadLetters`. -/
theorem noHeadLetters_conflict (p c : Char) (hp : p = 'D' ∨ p = 'B' ∨ p = 'C')
    (hc : noHeadLetters c = true) : eqCI p c = false := by
  unfold noHeadLetters at hc
  simp only [Bool.and_eq_true] at hc
  rcases hp with rfl | rfl | rfl
  · cases he : eqCI 'D' c
    · rfl
    · rw [he] at hc
      simp at hc
  · cases he : eqCI 'B' c
    · rfl
    · rw [he] at hc
      simp at hc
  · cases he : eqCI 'C' c
    · rfl
    · rw [he] at hc
      simp at hc

/-- A whole-word CI substitution pass that cannot match anywhere inside
`M` and whose head letter conflicts with every character of `u` and `v`
leaves `u ++ M ++ v` unchanged. -/
theorem subWordCI_fixed (pat repl M u v : List Char) (hne : pat ≠ [])
    (hM : cma eqCI pat M = true)
    (hu : ∀ c ∈ u, eqCI (pat.headD 'A') c = false)
    (hv : ∀ c ∈ v, eqCI (pat.headD 'A') c = false) :
    subWordCI pat repl (u ++ M ++ v) = u ++ M ++ v := by
  cases pat with
  | nil => exact absurd rfl hne
  | cons p ps =>
    simp only [List.headD_cons] at hu hv
    show subWordFuel eqCI p ps repl ((u ++ M ++ v).length) none (u ++ M ++ v) = u ++ M ++ v
    have hlen : (u ++ M ++ v).length = u.length + (M.length + v.length) := by
      simp [List.length_append]
    rw [hlen, List.append_assoc]
    rw [subWordFuel_append_skip eqCI p ps repl u hu (M ++ v)]
    rw [subWordFuel_append_cma eqCI p ps repl M hM v]
    rw [subWordFuel_id eqCI p ps repl v hv]

/-- Folding whole-word CI substitutions, each satisfying the fixedness
conditions, leaves `u ++ M ++ v` unchanged. -/
theorem foldl_subWordCI_fixed (L : List (List Char × List Char)) (M u v : List Char)
    (hL : ∀ pr ∈ L, pr.1 ≠ [] ∧ cma eqCI pr.1 M = true ∧
      (∀ c ∈ u, eqCI (pr.1.headD 'A') c = false) ∧
      (∀ c ∈ v, eqCI (pr.1.headD 'A') c = false)) :
    L.foldl (fun a pr => subWordCI pr.1 pr.2 a) (u ++ M ++ v) = u ++ M ++ v := by
  induction L with
  | nil => rfl
  | cons pr L2 ih =>
    have h1 := hL pr (List.mem_cons_self pr L2)
    rw [List.foldl_cons,
      subWordCI_fixed pr.1 pr.2 M u v h1.1 h1.2.1 h1.2.2.1 h1.2.2.2,
      ih (fun q hq => hL q (List.mem_cons_of_mem pr hq))]

/-- The `DUBLIN 4 → D4` pass rewrites `u ++ M ++ v` to `u ++ "D4" ++ v`
for any casing `M` of the phrase, when no character of `u` or `v`
case-insensitively equals `D` and the phrase stands as a whole word
(`u` ends, and `v` begins, with a non-word character or nothing). -/
theorem subWordCI_dublin4 (M u v : List Char)
    (hM : upperStr M = "DUBLIN 4".toList)
    (hu : ∀ c ∈ u, eqCI 'D' c = false)
    (hulast : u.getLast?.elim true (fun b => !isWordChar b) = true)
    (hv : ∀ c ∈ v, eqCI 'D' c = false)
    (hvhead : v.head?.elim true (fun d => !isWordChar d) = true) :
    subWordCI "DUBLIN 4".toList "D4".toList (u ++ M ++ v) =
      u ++ "D4".toList ++ v := by
  obtain ⟨c, M0, rfl⟩ : ∃ c M0, M = c :: M0 := by
    cases M with
    | nil => simp [upperStr] at hM
    | cons c M0 => exact ⟨c, M0, rfl⟩
  have h2 : c.toUpper = 'D' ∧ upperStr M0 = "UBLIN 4".toList := by
    have h3 := hM
    simp only [upperStr, List.map_cons] at h3
    rw [show ("DUBLIN 4".toList : List Char) = 'D' :: "UBLIN 4".toList from rfl,
      List.cons_eq_cons] at h3
    exact h3
  have hlen0 : M0.length = 7 := by
    have h4 := congrArg List.length h2.2
    simpa [upperStr] using h4
  have hcword : isWordChar c = true := by
    rw [← isWordChar_toUpper, h2.1]
    decide
  show subWordFuel eqCI 'D' ['U','B','L','I','N',' ','4'] "D4".toList
      ((u ++ (c :: M0) ++ v).length) none (u ++ (c :: M0) ++ v) =
      u ++ "D4".toList ++ v
  have hlen : (u ++ (c :: M0) ++ v).length = u.length + (8 + v.length) := by
    simp only [List.length_append, List.length_cons, hlen0]
    omega
  rw [hlen, List.append_assoc]
  rw [subWordFuel_append_skip eqCI 'D' ['U','B','L','I','N',' ','4'] "D4".toList u hu]
  have hmid : subWordFuel eqCI 'D' ['U','B','L','I','N',' ','4'] "D4".toList
      (8 + v.length) (prevA none u) ((c :: M0) ++ v) = "D4".toList ++ v := by
    have hb : boundaryOk (prevA none u) c = true := boundary_of_last u hulast c hcword
    have hagree : agrees eqCI "DUBLIN 4".toList (c :: M0) = true :=
      agrees_of_upperStr "DUBLIN 4".toList (c :: M0)
        (hM.trans (by decide : ("DUBLIN 4".toList : List Char)
          = upperStr "DUBLIN 4".toList))
    have hm : matchBy eqCI ('D' :: ['U','B','L','I','N',' ','4'])
        (c :: (M0 ++ v)) = true :=
      matchBy_of_agrees eqCI "DUBLIN 4".toList (c :: M0) hagree v
    have h8 : (8 : ℕ) + v.length = (7 + v.length) + 1 := by omega
    rw [h8]
    show subWordFuel eqCI 'D' ['U','B','L','I','N',' ','4'] "D4".toList
        ((7 + v.length) + 1) (prevA none u) (c :: (M0 ++ v)) = "D4".toList ++ v
    rw [subWordFuel]
    have htake : List.take (['U','B','L','I','N',' ','4'] : List Char).length
        (M0 ++ v) = M0 :=
      List.take_left' (by rw [hlen0]; rfl)
    have hdrop : List.drop (['U','B','L','I','N',' ','4'] : List Char).length
        (M0 ++ v) = v :=
      List.drop_left' (by rw [hlen0]; rfl)
    rw [htake, hdrop]
    have hlast4 : (List.getLastD M0 c).toUpper = '4' := by
      have h4 : List.getLastD (upperStr M0) (c.toUpper)
          = (List.getLastD M0 c).toUpper := map_getLastD Char.toUpper M0 c
      rw [h2.2, h2.1] at h4
      exact h4.symm
    have hlastword : isWordChar (List.getLastD M0 c) = true := by
      rw [← isWordChar_toUpper, hlast4]
      decide
    have hafter : afterOk (List.getLastD M0 c) v = true :=
      afterOk_of_head _ hlastword v hvhead
    rw [hb, hm, hafter]
    simp only [Bool.and_self, if_pos]
    rw [subWordFuel_id eqCI 'D' ['U','B','L','I','N',' ','4'] "D4".toList v hv]
  rw [hmid, ← List.append_assoc]

theorem area_mappings_split :
    area_mappings = area_mappings_pre ++
      ("DUBLIN 4".toList, "D4".toList) :: area_mappings_post := rfl

theorem dedupAux_sublist (cs : List Case) :
    ∀ seen, (dedupAux seen cs).Sublist cs := by
  induction cs with
  | nil => intro seen; simp [dedupAux]
  | cons c cs ih =>
    intro seen
    unfold dedupAux
    by_cases h : seen.contains c.reference = true
    · simp only [h, if_pos]
      exact (ih seen).cons c
    · simp only [Bool.not_eq_true] at h
      simp only [h, Bool.false_eq_true, if_false]
      exact (ih (c.reference :: seen)).cons₂ c

theorem dedupAux_filter_seen (cs : List Case) :
    ∀ seen r, seen.contains r = true →
      (dedupAux seen cs).filter (fun c => c.reference == r) = [] := by
  induction cs with
  | nil => intro seen r _; simp [dedupAux]
  | cons c cs ih =>
    intro seen r hr
    unfold dedupAux
    by_cases h : seen.contains c.reference = true
    · simp only [h, if_pos]
      exact ih seen r hr
    · simp only [Bool.not_eq_true] at h
      simp only [h, Bool.false_eq_true, if_false]
      have hne : (c.reference == r) = false := by
        by_contra hcontra
        simp only [Bool.not_eq_false, beq_iff_eq] at hcontra
        rw [hcontra] at h
        rw [h] at hr
        exact Bool.false_ne_true hr
      rw [List.filter_cons_of_neg (by simp [hne])]
      refine ih (c.reference :: seen) r ?_
      rw [List.contains_cons, Bool.or_eq_true]
      right
      exact hr

theorem dedupAux_at_most_one (cs : List Case) :
    ∀ seen r, ((dedupAux seen cs).filter (fun c => c.reference == r)).length ≤ 1 := by
  induction cs with
  | nil => intro seen r; simp [dedupAux]
  | cons c cs ih =>
    intro seen r
    unfold dedupAux
    by_cases h : seen.contains c.reference = true
    · simp only [h, if_pos]
      exact ih seen r
    · simp only [Bool.not_eq_true] at h
      simp only [h, Bool.false_eq_true, if_false]
      by_cases hr : (c.reference == r) = true
      · rw [List.filter_cons_of_pos (by simp [hr])]
        have h0 := dedupAux_filter_seen cs (c.reference :: seen) r
          (by
            rw [beq_iff_eq] at hr
            simp [List.contains_cons, hr])
        simp [h0]
      · simp only [Bool.not_eq_true] at hr
        rw [List.filter_cons_of_neg (by simp [hr])]
        exact ih (c.reference :: seen) r

theorem dedupAux_find? (cs : List Case) :
    ∀ seen r, seen.contains r = false →
      (dedupAux seen cs).find? (fun c => c.reference == r) =
        cs.find? (fun c => c.reference == r) := by
  induction cs with
  | nil => intro seen r _; simp [dedupAux]
  | cons c cs ih =>
    intro seen r hr
    unfold dedupAux
    by_cases h : seen.contains c.reference = true
    · simp only [h, if_pos]
      have hne : (c.reference == r) = false := by
        by_contra hcontra
        simp only [Bool.not_eq_false, beq_iff_eq] at hcontra
        rw [hcontra] at h
        rw [h] at hr
        simp at hr
      rw [List.find?_cons_of_neg _ (by simp [hne])]
      exact ih seen r hr
    · simp only [Bool.not_eq_true] at h
      simp only [h, Bool.false_eq_true, if_false]
      by_cases hc : (c.reference == r) = true
      · rw [List.find?_cons_of_pos _ (by simp [hc]), List.find?_cons_of_pos _ (by simp [hc])]
      · simp only [Bool.not_eq_true] at hc
        rw [List.find?_cons_of_neg _ (by simp [hc]), List.find?_cons_of_neg _ (by simp [hc])]
        refine ih (c.reference :: seen) r ?_
        simp only [List.contains_cons, Bool.or_eq_false_iff]
        refine ⟨?_, hr⟩
        by_contra hcontra
        simp only [Bool.not_eq_false, beq_iff_eq] at hcontra
        rw [hcontra] at hc
        simp at hc

theorem geocodeLoop_cons_none {box : ℚ → ℚ → Bool} {geocode : Geocoder}
    {cleaned : List Char} {m : List Char → Option (List Char)}
    {ms : List (List Char → Option (List Char))} (hm : m cleaned = none) :
    geocodeLoop box geocode cleaned (m :: ms) = geocodeLoop box geocode cleaned ms := by
  conv_lhs => rw [geocodeLoop]
  rw [hm]

theorem geocodeLoop_cons_error {box : ℚ → ℚ → Bool} {geocode : Geocoder}
    {cleaned q : List Char} {m : List Char → Option (List Char)}
    {ms : List (List Char → Option (List Char))} {e : Unit}
    (hm : m cleaned = some q) (hg : geocode q = .error e) :
    geocodeLoop box geocode cleaned (m :: ms) =
      ((geocodeLoop box geocode cleaned ms).1,
        Ev.sleep 1 :: Ev.geocode q :: (geocodeLoop box geocode cleaned ms).2) := by
  conv_lhs => rw [geocodeLoop]
  rw [hm]
  simp only []
  rw [hg]

theorem geocodeLoop_cons_ok_none {box : ℚ → ℚ → Bool} {geocode : Geocoder}
    {cleaned q : List Char} {m : List Char → Option (List Char)}
    {ms : List (List Char → Option (List Char))}
    (hm : m cleaned = some q) (hg : geocode q = .ok none) :
    geocodeLoop box geocode cleaned (m :: ms) =
      ((geocodeLoop box geocode cleaned ms).1,
        Ev.sleep 1 :: Ev.geocode q :: (geocodeLoop box geocode cleaned ms).2) := by
  conv_lhs => rw [geocodeLoop]
  rw [hm]
  simp only []
  rw [hg]

theorem geocodeLoop_cons_hit {box : ℚ → ℚ → Bool} {geocode : Geocoder}
    {cleaned q : List Char} {m : List Char → Option (List Char)}
    {ms : List (List Char → Option (List Char))} {lat lon : ℚ}
    (hm : m cleaned = some q) (hg : geocode q = .ok (some (lat, lon)))
    (hb : box lat lon = true) :
    geocodeLoop box geocode cleaned (m :: ms) =
      (some (lat, lon), [Ev.sleep 1, Ev.geocode q]) := by
  conv_lhs => rw [geocodeLoop]
  rw [hm]
  simp only []
  rw [hg]
  simp only []
  rw [hb]
  simp only [if_pos]

theorem geocodeLoop_cons_miss {box : ℚ → ℚ → Bool} {geocode : Geocoder}
    {cleaned q : List Char} {m : List Char → Option (List Char)}
    {ms : List (List Char → Option (List Char))} {lat lon : ℚ}
    (hm : m cleaned = some q) (hg : geocode q = .ok (some (lat, lon)))
    (hb : box lat lon = false) :
    geocodeLoop box geocode cleaned (m :: ms) =
      ((geocodeLoop box geocode cleaned ms).1,
        Ev.sleep 1 :: Ev.geocode q :: (geocodeLoop box geocode cleaned ms).2) := by
  conv_lhs => rw [geocodeLoop]
  rw [hm]
  simp only []
  rw [hg]
  simp only []
  rw [hb]
  simp only [Bool.false_eq_true, if_false]

theorem geocodeLoop_eq_first_in_box (box : ℚ → ℚ → Bool) (geocode : Geocoder)
    (cleaned : List Char) :
    ∀ ms, (geocodeLoop box geocode cleaned ms).1 =
      first_in_box box geocode (loopQueries cleaned ms) := by
  intro ms
  induction ms with
  | nil => rfl
  | cons m ms ih =>
    cases hm : m cleaned with
    | none =>
      rw [geocodeLoop_cons_none hm]
      unfold loopQueries
      simpa [List.filterMap_cons, hm] using ih
    | some q =>
      have hq : loopQueries cleaned (m :: ms) = q :: loopQueries cleaned ms := by
        unfold loopQueries
        simp [List.filterMap_cons, hm]
      rw [hq]
      cases hg : geocode q with
      | error e =>
        rw [geocodeLoop_cons_error hm hg]
        simp [first_in_box, hg, ih]
      | ok oloc =>
        cases oloc with
        | none =>
          rw [geocodeLoop_cons_ok_none hm hg]
          simp [first_in_box, hg, ih]
        | some p =>
          obtain ⟨lat, lon⟩ := p
          by_cases hb : box lat lon = true
          · rw [geocodeLoop_cons_hit hm hg hb]
            simp [first_in_box, hg, hb]
          · simp only [Bool.not_eq_true] at hb
            rw [geocodeLoop_cons_miss hm hg hb]
            simp [first_in_box, hg, hb, ih]

theorem first_in_box_some (box : ℚ → ℚ → Bool) (geocode : Geocoder) :
    ∀ qs p, first_in_box box geocode qs = some p → box p.1 p.2 = true := by
  intro qs
  induction qs with
  | nil => intro p h; simp [first_in_box] at h
  | cons q qs ih =>
    intro p h
    unfold first_in_box at h
    split at h
    · rename_i lat lon heq
      split at h
      · rename_i hb
        cases h
        exact hb
      · exact ih p h
    · exact ih p h

theorem loopQueries_variants (variants : List (List Char)) :
    loopQueries [] (variants.map (fun q _ => some q)) = variants := by
  induction variants with
  | nil => rfl
  | cons q qs ih =>
    unfold loopQueries at ih ⊢
    simp only [List.map_cons, List.filterMap_cons, ih]

theorem sleep_guard_cons (q0 : List Char) (t : List Ev)
    (ht : ∀ i q, t[i]? = some (Ev.geocode q) →
      ∃ j, i = j + 1 ∧ t[j]? = some (Ev.sleep 1)) :
    ∀ i q, (Ev.sleep 1 :: Ev.geocode q0 :: t)[i]? = some (Ev.geocode q) →
      ∃ j, i = j + 1 ∧ (Ev.sleep 1 :: Ev.geocode q0 :: t)[j]? = some (Ev.sleep 1) := by
  intro i q h
  match i with
  | 0 => simp at h
  | 1 => exact ⟨0, rfl, rfl⟩
  | k + 2 =>
    simp only [List.getElem?_cons_succ] at h
    obtain ⟨j, hj1, hj2⟩ := ht k q h
    refine ⟨j + 2, by omega, ?_⟩
    simpa [List.getElem?_cons_succ] using hj2

theorem geocodeLoop_sleep_guard (box : ℚ → ℚ → Bool) (geocode : Geocoder)
    (cleaned : List Char) :
    ∀ ms i q, ((geocodeLoop box geocode cleaned ms).2)[i]? = some (Ev.geocode q) →
      ∃ j, i = j + 1 ∧ ((geocodeLoop box geocode cleaned ms).2)[j]? = some (Ev.sleep 1) := by
  intro ms
  induction ms with
  | nil => intro i q h; simp [geocodeLoop] at h
  | cons m ms ih =>
    cases hm : m cleaned with
    | none =>
      rw [geocodeLoop_cons_none hm]
      exact ih
    | some q0 =>
      cases hg : geocode q0 with
      | error e =>
        rw [geocodeLoop_cons_error hm hg]
        exact sleep_guard_cons q0 _ ih
      | ok oloc =>
        cases oloc with
        | none =>
          rw [geocodeLoop_cons_ok_none hm hg]
          exact sleep_guard_cons q0 _ ih
        | some pt =>
          obtain ⟨lat, lon⟩ := pt
          by_cases hb : box lat lon = true
          · rw [geocodeLoop_cons_hit hm hg hb]
            exact sleep_guard_cons q0 [] (by intro i q h; simp at h)
          · simp only [Bool.not_eq_true] at hb
            rw [geocodeLoop_cons_miss hm hg hb]
            exact sleep_guard_cons q0 _ ih

theorem scraper_trace_sleep (urls : List (List Char)) :
    ∀ i u, (scraper_main_trace urls)[i]? = some (Ev.httpGet u) →
      (scraper_main_trace urls)[i + 1]? = some (Ev.sleep 2) := by
  induction urls with
  | nil => intro i u h; simp [scraper_main_trace] at h
  | cons u0 us ih =>
    intro i u h
    have hshape : scraper_main_trace (u0 :: us) =
        Ev.httpGet u0 :: Ev.sleep 2 :: scraper_main_trace us := by
      simp [scraper_main_trace]
    rw [hshape] at h ⊢
    match i with
    | 0 => simp
    | 1 => simp at h
    | k + 2 =>
      simp only [List.getElem?_cons_succ] at h ⊢
      exact ih k u h

theorem lookup_map_update_ne (cache : Cache) (k k2 : List Char)
    (v : Option (ℚ × ℚ)) (hne : k2 ≠ k) :
    (cache.map (fun pr => if pr.1 == k then (pr.1, v) else pr)).lookup k2 =
      cache.lookup k2 := by
  induction cache with
  | nil => rfl
  | cons hd t ih =>
    obtain ⟨k0, v0⟩ := hd
    simp only [List.map_cons]
    by_cases hk : (k0 == k) = true
    · rw [if_pos hk]
      have hk0 : k0 = k := by rwa [beq_iff_eq] at hk
      have h2 : (k2 == k0) = false := by
        rw [beq_eq_false_iff_ne, hk0]
        exact hne
      simp only [List.lookup, h2]
      exact ih
    · rw [if_neg hk]
      by_cases h2 : (k2 == k0) = true
      · simp only [List.lookup, h2]
      · simp only [Bool.not_eq_true] at h2
        simp only [List.lookup, h2]
        exact ih

theorem lookup_append_single_ne (cache : Cache) (k k2 : List Char)
    (v : Option (ℚ × ℚ)) (hne : k2 ≠ k) :
    (cache ++ [(k, v)]).lookup k2 = cache.lookup k2 := by
  induction cache with
  | nil =>
    have h2 : (k2 == k) = false := by rwa [beq_eq_false_iff_ne]
    simp [List.lookup, h2]
  | cons hd t ih =>
    obtain ⟨k0, v0⟩ := hd
    by_cases h2 : (k2 == k0) = true
    · simp [List.lookup, h2]
    · simp only [Bool.not_eq_true] at h2
      simp [List.lookup, h2, ih]

theorem dictSet_lookup_ne (cache : Cache) (k k2 : List Char)
    (v : Option (ℚ × ℚ)) (hne : k2 ≠ k) :
    (dictSet cache k v).lookup k2 = cache.lookup k2 := by
  unfold dictSet
  by_cases hs : (cache.lookup k).isSome = true
  · rw [if_pos hs]
    exact lookup_map_update_ne cache k k2 v hne
  · rw [if_neg hs]
    exact lookup_append_single_ne cache k k2 v hne

theorem dictSet_lookup_isSome (cache : Cache) (k k2 : List Char)
    (v : Option (ℚ × ℚ)) (h : ((dictSet cache k v).lookup k2).isSome = true) :
    (cache.lookup k2).isSome = true ∨ k2 = k := by
  by_cases hne : k2 = k
  · right
    exact hne
  · left
    rwa [dictSet_lookup_ne cache k k2 v hne] at h

theorem geocode_addresses_preserves (results : List Char → Option (ℚ × ℚ))
    (a : List Char) (cv : Option (ℚ × ℚ)) :
    ∀ as cache, cache.lookup a = some cv →
      (geocode_addresses results cache as).cache.lookup a = some cv ∧
      a ∉ (geocode_addresses results cache as).calls ∧
      ∀ s ∈ (geocode_addresses results cache as).saves, s.lookup a = some cv := by
  intro as
  induction as with
  | nil =>
    intro cache h
    refine ⟨h, ?_, ?_⟩
    · simp [geocode_addresses]
    · intro s hs
      simp [geocode_addresses] at hs
  | cons b bs ih =>
    intro cache h
    by_cases hc : b ≠ [] ∧ (cache.lookup b).isNone
    · have hba : a ≠ b := by
        intro hab
        rw [← hab, h] at hc
        simp at hc
      have h2 : (dictSet cache b (results b)).lookup a = some cv := by
        rw [dictSet_lookup_ne cache b a (results b) hba]
        exact h
      obtain ⟨ihc, ihcalls, ihsaves⟩ := ih (dictSet cache b (results b)) h2
      simp only [geocode_addresses, if_pos hc]
      refine ⟨ihc, ?_, ?_⟩
      · intro hmem
        rcases List.mem_cons.mp hmem with hab | hmem2
        · exact hba hab
        · exact ihcalls hmem2
      · intro s hs
        rcases List.mem_cons.mp hs with rfl | hs2
        · exact h2
        · exact ihsaves s hs2
    · simp only [geocode_addresses, if_neg hc]
      exact ih cache h

theorem geocode_addresses_keys (results : List Char → Option (ℚ × ℚ)) :
    ∀ as cache (k : List Char),
      ((geocode_addresses results cache as).cache.lookup k).isSome = true →
      (cache.lookup k).isSome = true ∨ k ∈ as := by
  intro as
  induction as with
  | nil =>
    intro cache k h
    left
    simpa [geocode_addresses] using h
  | cons b bs ih =>
    intro cache k h
    by_cases hc : b ≠ [] ∧ (cache.lookup b).isNone
    · simp only [geocode_addresses, if_pos hc] at h
      rcases ih (dictSet cache b (results b)) k h with h2 | h2
      · rcases dictSet_lookup_isSome cache b k (results b) h2 with h3 | h3
        · exact Or.inl h3
        · exact Or.inr (by rw [h3]; exact List.mem_cons_self b bs)
      · exact Or.inr (List.mem_cons_of_mem b h2)
    · simp only [geocode_addresses, if_neg hc] at h
      rcases ih cache k h with h2 | h2
      · exact Or.inl h2
      · exact Or.inr (List.mem_cons_of_mem b h2)

theorem geocode_addresses_last_save (results : List Char → Option (ℚ × ℚ)) :
    ∀ as cache,
      ((geocode_addresses results cache as).saves = [] ∧
        (geocode_addresses results cache as).cache = cache) ∨
      (geocode_addresses results cache as).saves.getLast? =
        some (geocode_addresses results cache as).cache := by
  intro as
  induction as with
  | nil =>
    intro cache
    left
    constructor
    · simp [geocode_addresses]
    · simp [geocode_addresses]
  | cons b bs ih =>
    intro cache
    by_cases hc : b ≠ [] ∧ (cache.lookup b).isNone
    · right
      simp only [geocode_addresses, if_pos hc]
      rcases ih (dictSet cache b (results b)) with ⟨hs, hcch⟩ | hlast
      · rw [hs, hcch]
        rfl
      · cases hsv : (geocode_addresses results (dictSet cache b (results b)) bs).saves with
        | nil =>
          rw [hsv] at hlast
          simp at hlast
        | cons s0 ss =>
          rw [hsv] at hlast
          rw [List.getLast?_cons_cons]
          exact hlast
    · simp only [geocode_addresses, if_neg hc]
      exact ih cache

theorem dedup_addresses_subset (k : List Char) :
    ∀ (l : List (List Char)) seen, k ∈ dedup_addresses seen l → k ∈ l := by
  intro l
  induction l with
  | nil => intro seen h; simp [dedup_addresses] at h
  | cons a as ih =>
    intro seen h
    unfold dedup_addresses at h
    by_cases hc : seen.contains a = true
    · rw [if_pos hc] at h
      exact List.mem_cons_of_mem a (ih seen h)
    · rw [if_neg hc] at h
      rcases List.mem_cons.mp h with rfl | h2
      · exact List.mem_cons_self k as
      · exact List.mem_cons_of_mem a (ih (a :: seen) h2)

theorem first_in_box_all_error (box : ℚ → ℚ → Bool) :
    ∀ qs, first_in_box box (fun _ => .error ()) qs = none := by
  intro qs
  induction qs with
  | nil => rfl
  | cons q qs ih => simpa [first_in_box] using ih

theorem upperStr_titleCase (x : List Char) :
    ∀ flag, upperStr (titleCase flag x) = upperStr x := by
  induction x with
  | nil => intro flag; rfl
  | cons c cs ih =>
    intro flag
    show ((if isAlphaA c then (if flag then c.toLower else c.toUpper) else c).toUpper)
        :: upperStr (titleCase (isAlphaA c) cs) = c.toUpper :: upperStr cs
    have hh : (if isAlphaA c then (if flag then c.toLower else c.toUpper) else c).toUpper
        = c.toUpper := by
      by_cases ha : isAlphaA c = true
      · rw [if_pos ha]
        cases flag with
        | true => simpa using toUpper_toLower c
        | false => simpa using toUpper_toUpper c
      · simp only [Bool.not_eq_true] at ha
        simp [ha]
    rw [hh, ih (isAlphaA c)]

theorem isPrefixOf_toProp {l1 l2 : List Char} :
    l1.isPrefixOf l2 = true ↔ l1 <+: l2 :=
  List.isPrefixOf_iff_prefix

theorem containsStr_iff_substring (s pat : List Char) :
    containsStr s pat = true ↔ pat <:+: s := by
  unfold containsStr
  rw [List.any_eq_true]
  constructor
  · rintro ⟨t, ht, hp⟩
    exact List.infix_iff_prefix_suffix.mpr
      ⟨t, isPrefixOf_toProp.mp hp, (List.mem_tails t s).mp ht⟩
  · intro h
    obtain ⟨t, hpre, hsuf⟩ := List.infix_iff_prefix_suffix.mp h
    exact ⟨t, (List.mem_tails t s).mpr hsuf, isPrefixOf_toProp.mpr hpre⟩

theorem contains_upper_title (x : List Char)
    (h : containsStr x "IRELAND".toList = true) :
    containsStr (upperStr (titleCase false x)) "IRELAND".toList = true := by
  rw [containsStr_iff_substring] at h ⊢
  rw [upperStr_titleCase]
  have h2 := h.map Char.toUpper
  rwa [show "IRELAND".toList.map Char.toUpper = "IRELAND".toList from rfl] at h2

theorem append_ireland_contains (x : List Char) :
    containsStr (if !containsStr x "IRELAND".toList
      then x ++ ", IRELAND".toList else x) "IRELAND".toList = true := by
  by_cases h : containsStr x "IRELAND".toList = true
  · rw [h]
    simp only [Bool.not_true, Bool.false_eq_true, if_false]
    exact h
  · simp only [Bool.not_eq_true] at h
    simp only [h, Bool.not_false, if_pos]
    rw [containsStr_iff_substring]
    have h1 : "IRELAND".toList <:+ ", IRELAND".toList := by decide
    exact (h1.trans (List.suffix_append x _)).isInfix

end DubRe

open DubRe

/-- C5 (counterexample): on the address `"BAC Dublin 4"` — which contains
the standalone phrase `"Dublin 4"` — `standardize_dublin_areas` does not
merely replace that phrase by `"D4"`: the `BAC → Dublin` mapping also
rewrites the other text, yielding `"Dublin D4"`, not `"BAC D4"`. -/
theorem C5_counterexample :
    standardize_dublin_areas "BAC Dublin 4".toList = "Dublin D4".toList ∧
      standardize_dublin_areas "BAC Dublin 4".toList ≠ "BAC D4".toList := by
  constructor
  · decide
  · decide

/-- C5 (amended): `standardize_dublin_areas` maps a whole-word occurrence
of `"Dublin 4"` in any letter case (any `M` upper-casing to `"DUBLIN 4"`,
standing as a whole word: non-word characters, or nothing, on both
sides) to `"D4"`, and the surrounding text is left unchanged provided
none of its characters case-insensitively equals a letter that begins
another area mapping (`D`, `B` or `C`), so that no other mapping's match
can start in it. -/
theorem C5_standardize_dublin4 (M u v : List Char)
    (hM : upperStr M = "DUBLIN 4".toList)
    (hu : ∀ c ∈ u, noHeadLetters c = true)
    (hulast : u.getLast?.elim true (fun b => !isWordChar b) = true)
    (hv : ∀ c ∈ v, noHeadLetters c = true)
    (hvhead : v.head?.elim true (fun d => !isWordChar d) = true) :
    standardize_dublin_areas (u ++ M ++ v) = u ++ "D4".toList ++ v := by
  have hMD : upperStr M = upperStr "Dublin 4".toList :=
    hM.trans (by decide : ("DUBLIN 4".toList : List Char)
      = upperStr "Dublin 4".toList)
  have hu4 : ∀ c ∈ u, eqCI 'D' c = false :=
    fun c hc => noHeadLetters_conflict 'D' c (Or.inl rfl) (hu c hc)
  have hv4 : ∀ c ∈ v, eqCI 'D' c = false :=
    fun c hc => noHeadLetters_conflict 'D' c (Or.inl rfl) (hv c hc)
  have hheads_pre : ∀ pr ∈ area_mappings_pre, pr.1 ≠ [] ∧
      (pr.1.headD 'A' = 'D' ∨ pr.1.headD 'A' = 'B' ∨ pr.1.headD 'A' = 'C') := by
    decide
  have hcma_pre : ∀ pr ∈ area_mappings_pre,
      cma eqCI pr.1 "Dublin 4".toList = true := by
    decide
  have hLpre : ∀ pr ∈ area_mappings_pre, pr.1 ≠ [] ∧ cma eqCI pr.1 M = true ∧
      (∀ c ∈ u, eqCI (pr.1.headD 'A') c = false) ∧
      (∀ c ∈ v, eqCI (pr.1.headD 'A') c = false) := by
    intro pr hpr
    obtain ⟨hne, hhead⟩ := hheads_pre pr hpr
    refine ⟨hne, ?_, ?_, ?_⟩
    · rw [cma_congr pr.1 M "Dublin 4".toList hMD]
      exact hcma_pre pr hpr
    · exact fun c hc => noHeadLetters_conflict _ c hhead (hu c hc)
    · exact fun c hc => noHeadLetters_conflict _ c hhead (hv c hc)
  have hLpost : ∀ pr ∈ area_mappings_post, pr.1 ≠ [] ∧
      cma eqCI pr.1 "D4".toList = true ∧
      (∀ c ∈ u, eqCI (pr.1.headD 'A') c = false) ∧
      (∀ c ∈ v, eqCI (pr.1.headD 'A') c = false) := by
    have hheads_post : ∀ pr ∈ area_mappings_post, pr.1 ≠ [] ∧
        (pr.1.headD 'A' = 'D' ∨ pr.1.headD 'A' = 'B' ∨ pr.1.headD 'A' = 'C') := by
      decide
    have hcma_post : ∀ pr ∈ area_mappings_post,
        cma eqCI pr.1 "D4".toList = true := by
      decide
    intro pr hpr
    obtain ⟨hne, hhead⟩ := hheads_post pr hpr
    refine ⟨hne, hcma_post pr hpr, ?_, ?_⟩
    · exact fun c hc => noHeadLetters_conflict _ c hhead (hu c hc)
    · exact fun c hc => noHeadLetters_conflict _ c hhead (hv c hc)
  unfold standardize_dublin_areas
  rw [area_mappings_split, List.foldl_append, List.foldl_cons]
  rw [foldl_subWordCI_fixed area_mappings_pre M u v hLpre]
  show List.foldl (fun a pr => subWordCI pr.1 pr.2 a)
    (subWordCI "DUBLIN 4".toList "D4".toList (u ++ M ++ v))
    area_mappings_post = u ++ "D4".toList ++ v
  rw [subWordCI_dublin4 M u v hM hu4 hulast hv4 hvhead]
  rw [foldl_subWordCI_fixed area_mappings_post "D4".toList u v hLpost]

/-- C5 (witness): the amended theorem applied at the differently cased
occurrence `M = "DUBLIN 4"` with `u = "X "` (which holds the word
character `X`) and `v = ", 42"`. -/
theorem C5_witness :
    standardize_dublin_areas ("X ".toList ++ "DUBLIN 4".toList ++ ", 42".toList) =
      "X ".toList ++ "D4".toList ++ ", 42".toList :=
  C5_standardize_dublin4 "DUBLIN 4".toList "X ".toList ", 42".toList
    (by decide) (by decide) (by decide) (by decide) (by decide)

/-- C10: `clean_price` is total (every exception is caught), returns
`None` exactly when the string form of its input contains no decimal
digit, and otherwise returns the number formed by concatenating all digit
characters, divided by 100. -/
theorem C10_clean_price (s : List Char) :
    (clean_price s = none ↔ s.all (fun c => !isDigitA c) = true) ∧
    (s.any isDigitA = true →
      clean_price s = some ((natOfDigits (s.filter isDigitA) : ℚ) / 100)) := by
  constructor
  · unfold clean_price parseDigits
    by_cases h : (s.filter isDigitA).isEmpty = true
    · simp only [h, if_pos, Option.map_none']
      rw [List.isEmpty_iff] at h
      rw [List.filter_eq_nil_iff] at h
      simp only [List.all_eq_true]
      constructor
      · intro _ c hc
        simp [h c hc]
      · intro _
        trivial
    · simp only [h]
      rw [Bool.not_eq_true] at h
      simp only [Bool.false_eq_true, if_false, Option.map_some']
      constructor
      · intro hcontra
        simp at hcontra
      · intro hall
        exfalso
        rw [List.isEmpty_eq_false_iff_exists_mem] at h
        obtain ⟨c, hc⟩ := h
        have h1 := List.of_mem_filter hc
        have h2 := List.mem_of_mem_filter hc
        rw [List.all_eq_true] at hall
        have := hall c h2
        simp [h1] at this
  · intro hany
    unfold clean_price parseDigits
    have : (s.filter isDigitA).isEmpty = false := by
      rw [List.isEmpty_eq_false_iff_exists_mem]
      rw [List.any_eq_true] at hany
      obtain ⟨c, hc, hdig⟩ := hany
      exact ⟨c, List.mem_filter.mpr ⟨hc, hdig⟩⟩
    simp [this]

/-- C10 (witness): the theorem applied to the string form of the price
text `"€1,234.56"`. -/
theorem C10_witness :
    clean_price "€1,234.56".toList =
      some ((natOfDigits ("€1,234.56".toList.filter isDigitA) : ℚ) / 100) :=
  (C10_clean_price "€1,234.56".toList).2 (by decide)

/-- C6: `merge_csv_files` returns `True` exactly when the directory holds
at least one CSV file, at least one of them is readable, and the output
write succeeds; files that fail to read are skipped, and on success the
written file is the row-wise concatenation of every readable file with a
fresh `0..n-1` row index. -/
theorem C6_merge_csv_files {α : Type} (files : List (List Char × Option (List α)))
    (writeOk : Bool) :
    ((merge_csv_files files writeOk).ret = true ↔
      files ≠ [] ∧ files.filterMap Prod.snd ≠ [] ∧ writeOk = true) ∧
    ((merge_csv_files files writeOk).ret = true →
      (merge_csv_files files writeOk).written =
        some ((files.filterMap Prod.snd).flatten.enum)) := by
  unfold merge_csv_files
  by_cases h1 : files.isEmpty = true
  · rw [List.isEmpty_iff] at h1
    simp [h1]
  · have h1' : files ≠ [] := by
      simpa [List.isEmpty_iff] using h1
    simp only [Bool.not_eq_true] at h1
    simp only [h1, Bool.false_eq_true, if_false]
    by_cases h2 : (files.filterMap Prod.snd).isEmpty = true
    · rw [List.isEmpty_iff] at h2
      simp [h2]
    · have h2' : files.filterMap Prod.snd ≠ [] := by
        simpa [List.isEmpty_iff] using h2
      simp only [Bool.not_eq_true] at h2
      simp only [h2, Bool.false_eq_true, if_false]
      cases writeOk with
      | true => simp [h1', h2']
      | false => simp

/-- C6 (witness): the theorem applied to a directory with two readable
files and one unreadable one. -/
theorem C6_witness :
    (merge_csv_files demo_files true).written =
      some [(0, 10), (1, 20), (2, 30)] := by
  have hret : (merge_csv_files demo_files true).ret = true :=
    (C6_merge_csv_files demo_files true).1.mpr ⟨by decide, by decide, rfl⟩
  have hw := (C6_merge_csv_files demo_files true).2 hret
  rw [hw]
  decide

/-- C7: after the scraper's `main` completes, the planning-cases CSV (when
one was saved) is the reference-deduplicated case list: it holds at most
one row per distinct `reference` value, keeping the first occurrence of
each reference in scrape order. -/
theorem C7_scraper_dedup (cases l : List Case)
    (h : scraper_final_csv cases = some l) :
    l = dedupByReference cases ∧
    (∀ r, (l.filter (fun c => c.reference == r)).length ≤ 1) ∧
    (∀ r, l.find? (fun c => c.reference == r) =
      cases.find? (fun c => c.reference == r)) := by
  have hl : l = dedupByReference cases := by
    unfold scraper_final_csv at h
    by_cases he : cases.isEmpty = true
    · simp [he] at h
    · simp only [Bool.not_eq_true] at he
      simp only [he, Bool.false_eq_true, if_false, Option.some.injEq] at h
      by_cases hlt : (dedupByReference cases).length < cases.length
      · rw [if_pos hlt] at h
        exact h.symm
      · rw [if_neg hlt] at h
        have hsub : (dedupByReference cases).Sublist cases := dedupAux_sublist cases []
        have hlen : (dedupByReference cases).length = cases.length := by
          have := hsub.length_le
          omega
        rw [← h]
        exact (hsub.eq_of_length hlen).symm
  subst hl
  refine ⟨rfl, ?_, ?_⟩
  · intro r
    exact dedupAux_at_most_one cases [] r
  · intro r
    exact dedupAux_find? cases [] r rfl

/-- C7 (witness): the theorem applied to three scraped cases of which the
third repeats the first one's reference. -/
theorem C7_witness :
    ([demo_case_a, demo_case_b] : List Case) = dedupByReference demo_cases :=
  (C7_scraper_dedup demo_cases [demo_case_a, demo_case_b] (by decide)).1

/-- C1: both `get_coordinates` functions try their fixed, statically
ordered list of address rewrites and return the coordinates of the first
attempt whose geocoding result lies inside the file's hardcoded bounding
box, returning `(None, None)` when no attempt does — hence every
non-null coordinate pair returned lies inside that file's bounding box. -/
theorem C1_get_coordinates_in_box :
    (∀ (geocode : Geocoder) (address : PyObj),
      (get_coordinates geocode address).1 =
        first_in_box dublin_box geocode
          (loopQueries (clean_address address) tries_csv)) ∧
    (∀ (geocode : Geocoder) (address : PyObj) (p : ℚ × ℚ),
      (get_coordinates geocode address).1 = some p → dublin_box p.1 p.2 = true) ∧
    (∀ (geocode : Geocoder) (variants : List (List Char)),
      (get_coordinates_cases geocode variants).1 =
        first_in_box dublin_box_cases geocode variants) ∧
    (∀ (geocode : Geocoder) (variants : List (List Char)) (p : ℚ × ℚ),
      (get_coordinates_cases geocode variants).1 = some p →
        dublin_box_cases p.1 p.2 = true) := by
  have h1 : ∀ (geocode : Geocoder) (address : PyObj),
      (get_coordinates geocode address).1 =
        first_in_box dublin_box geocode
          (loopQueries (clean_address address) tries_csv) :=
    fun geocode address =>
      geocodeLoop_eq_first_in_box dublin_box geocode (clean_address address) tries_csv
  have h3 : ∀ (geocode : Geocoder) (variants : List (List Char)),
      (get_coordinates_cases geocode variants).1 =
        first_in_box dublin_box_cases geocode variants := by
    intro geocode variants
    unfold get_coordinates_cases
    rw [geocodeLoop_eq_first_in_box, loopQueries_variants]
  refine ⟨h1, ?_, h3, ?_⟩
  · intro geocode address p hp
    rw [h1 geocode address] at hp
    exact first_in_box_some _ _ _ p hp
  · intro geocode variants p hp
    rw [h3 geocode variants] at hp
    exact first_in_box_some _ _ _ p hp

theorem demo_box : dublin_box 53 (-25/4) = true := by
  unfold dublin_box
  rw [decide_eq_true_eq]
  norm_num

theorem demo_box_cases : dublin_box_cases 53 (-25/4) = true := by
  unfold dublin_box_cases
  rw [decide_eq_true_eq]
  norm_num

theorem demo_run_csv :
    get_coordinates demo_geocoder (.str "X".toList) =
      (some (53, -25/4),
        [Ev.sleep 1, Ev.geocode (clean_address (.str "X".toList))]) := by
  unfold get_coordinates tries_csv
  rw [geocodeLoop_cons_hit rfl rfl demo_box]

theorem demo_run_cases :
    get_coordinates_cases demo_geocoder ["Q".toList] =
      (some (53, -25/4), [Ev.sleep 1, Ev.geocode "Q".toList]) := by
  unfold get_coordinates_cases
  simp only [List.map_cons, List.map_nil]
  exact @geocodeLoop_cons_hit dublin_box_cases demo_geocoder [] "Q".toList _ [] 53
    (-25/4) rfl rfl demo_box_cases

/-- C1 (witness): with a geolocator that places every query at
`(53, -25/4)`, both functions return that in-box point, and the theorem
yields its box membership. -/
theorem C1_witness :
    dublin_box 53 (-25/4) = true ∧ dublin_box_cases 53 (-25/4) = true :=
  ⟨C1_get_coordinates_in_box.2.1 demo_geocoder (.str "X".toList) (53, -25/4)
      (by rw [demo_run_csv]),
   C1_get_coordinates_in_box.2.2.2 demo_geocoder ["Q".toList] (53, -25/4)
      (by rw [demo_run_cases])⟩

/-- C8: in both `get_coordinates` functions every geolocator query event
is immediately preceded by a one-second sleep, and in the scraper's
`main` every HTTP fetch is immediately followed by a two-second sleep
before the next fetch. -/
theorem C8_fixed_delays :
    (∀ (geocode : Geocoder) (address : PyObj) (i : ℕ) (q : List Char),
      ((get_coordinates geocode address).2)[i]? = some (Ev.geocode q) →
        ∃ j, i = j + 1 ∧
          ((get_coordinates geocode address).2)[j]? = some (Ev.sleep 1)) ∧
    (∀ (geocode : Geocoder) (variants : List (List Char)) (i : ℕ) (q : List Char),
      ((get_coordinates_cases geocode variants).2)[i]? = some (Ev.geocode q) →
        ∃ j, i = j + 1 ∧
          ((get_coordinates_cases geocode variants).2)[j]? = some (Ev.sleep 1)) ∧
    (∀ (urls : List (List Char)) (i : ℕ) (u : List Char),
      (scraper_main_trace urls)[i]? = some (Ev.httpGet u) →
        (scraper_main_trace urls)[i + 1]? = some (Ev.sleep 2)) := by
  refine ⟨?_, ?_, scraper_trace_sleep⟩
  · intro geocode address
    exact geocodeLoop_sleep_guard dublin_box geocode (clean_address address) tries_csv
  · intro geocode variants
    exact geocodeLoop_sleep_guard dublin_box_cases geocode []
      (variants.map (fun q _ => some q))

/-- C8 (witness): the theorem applied to a concrete run whose trace is
`[sleep 1, geocode q]` (index 1 is a geocode event, index 0 the sleep),
and to a two-URL scrape (index 0 a fetch, index 1 the sleep). -/
theorem C8_witness :
    (∃ j, (1 : ℕ) = j + 1 ∧
      ((get_coordinates demo_geocoder (.str "X".toList)).2)[j]? =
        some (Ev.sleep 1)) ∧
    (scraper_main_trace ["u1".toList, "u2".toList])[0 + 1]? = some (Ev.sleep 2) :=
  ⟨C8_fixed_delays.1 demo_geocoder (.str "X".toList) 1
      (clean_address (.str "X".toList)) (by rw [demo_run_csv]; rfl),
   C8_fixed_delays.2.2 ["u1".toList, "u2".toList] 0 "u1".toList (by decide)⟩

/-- C3: an address already in the cache when `process_csv` runs is never
passed to the geocoder again, keeps its cached value in the final cache
(so a second lookup returns the same coordinates as the first), and the
coordinates written to every output row bearing that address are exactly
the cached pair. -/
theorem C3_cache_round_trip (geocode : Geocoder) (cache0 : Cache)
    (addresses : List (List Char)) (a : List Char) (cv : Option (ℚ × ℚ))
    (h : cache0.lookup a = some cv) :
    a ∉ (process_csv_geocoding geocode cache0 addresses).calls ∧
    (process_csv_geocoding geocode cache0 addresses).cache.lookup a = some cv ∧
    ∀ pr ∈ updateRows (process_csv_geocoding geocode cache0 addresses).cache
      addresses, pr.1 = a → pr.2 = some cv := by
  obtain ⟨hc, hcalls, _⟩ :=
    geocode_addresses_preserves (fun x => (get_coordinates geocode (.str x)).1) a cv
      ((dedup_addresses [] addresses).filter (fun x => (cache0.lookup x).isNone))
      cache0 h
  refine ⟨hcalls, hc, ?_⟩
  intro pr hpr hpa
  unfold updateRows at hpr
  obtain ⟨x, _, hx⟩ := List.mem_map.mp hpr
  rw [← hx] at hpa ⊢
  simp only at hpa ⊢
  rw [hpa]
  exact hc

/-- C3 (witness): the theorem applied to a run whose cache already holds
address `"A"`. -/
theorem C3_witness :
    (process_csv_geocoding demo_geocoder [("A".toList, some (1, 2))]
      ["A".toList, "B".toList]).cache.lookup "A".toList = some (some (1, 2)) :=
  (C3_cache_round_trip demo_geocoder [("A".toList, some (1, 2))]
    ["A".toList, "B".toList] "A".toList (some (1, 2)) rfl).2.1

/-- C4: the geocode cache maps raw address strings to possibly-null
coordinate pairs; during a run of `process_csv` or
`process_planning_cases` it is append-only (no existing key's value is
modified or removed), every `save_cache` snapshot is the entire current
mapping (so the last snapshot equals the final cache), and every key of
the final cache is either an original key or a raw address from the
input rows. -/
theorem C4_cache_append_only :
    (∀ (geocode : Geocoder) (cache0 : Cache) (addresses : List (List Char))
        (a : List Char) (cv : Option (ℚ × ℚ)), cache0.lookup a = some cv →
      (process_csv_geocoding geocode cache0 addresses).cache.lookup a = some cv ∧
      ∀ s ∈ (process_csv_geocoding geocode cache0 addresses).saves,
        s.lookup a = some cv) ∧
    (∀ (results : List Char → Option (ℚ × ℚ)) (cache0 : Cache)
        (addresses : List (Option (List Char))) (a : List Char)
        (cv : Option (ℚ × ℚ)), cache0.lookup a = some cv →
      (process_planning_geocoding results cache0 addresses).cache.lookup a =
        some cv ∧
      ∀ s ∈ (process_planning_geocoding results cache0 addresses).saves,
        s.lookup a = some cv) ∧
    (∀ (geocode : Geocoder) (cache0 : Cache) (addresses : List (List Char))
        (k : List Char),
      ((process_csv_geocoding geocode cache0 addresses).cache.lookup k).isSome =
        true → (cache0.lookup k).isSome = true ∨ k ∈ addresses) ∧
    (∀ (geocode : Geocoder) (cache0 : Cache) (addresses : List (List Char)),
      ((process_csv_geocoding geocode cache0 addresses).saves = [] ∧
        (process_csv_geocoding geocode cache0 addresses).cache = cache0) ∨
      (process_csv_geocoding geocode cache0 addresses).saves.getLast? =
        some (process_csv_geocoding geocode cache0 addresses).cache) := by
  refine ⟨?_, ?_, ?_, ?_⟩
  · intro geocode cache0 addresses a cv h
    obtain ⟨hc, _, hsaves⟩ :=
      geocode_addresses_preserves (fun x => (get_coordinates geocode (.str x)).1)
        a cv ((dedup_addresses [] addresses).filter
          (fun x => (cache0.lookup x).isNone)) cache0 h
    exact ⟨hc, hsaves⟩
  · intro results cache0 addresses a cv h
    obtain ⟨hc, _, hsaves⟩ :=
      geocode_addresses_preserves results a cv
        ((dedup_addresses [] (addresses.filterMap id)).filter
          (fun x => (cache0.lookup x).isNone)) cache0 h
    exact ⟨hc, hsaves⟩
  · intro geocode cache0 addresses k h
    rcases geocode_addresses_keys (fun x => (get_coordinates geocode (.str x)).1)
      ((dedup_addresses [] addresses).filter (fun x => (cache0.lookup x).isNone))
      cache0 k h with h2 | h2
    · exact Or.inl h2
    · exact Or.inr (dedup_addresses_subset k addresses []
        (List.mem_filter.mp h2).1)
  · intro geocode cache0 addresses
    exact geocode_addresses_last_save
      (fun x => (get_coordinates geocode (.str x)).1)
      ((dedup_addresses [] addresses).filter (fun x => (cache0.lookup x).isNone))
      cache0

/-- C4 (witness): the planning-cases loop run on a cache already holding
address `"A"` preserves that entry. -/
theorem C4_witness :
    (process_planning_geocoding (fun _ => none) [("A".toList, none)]
      [some "A".toList, none, some "C".toList]).cache.lookup "A".toList =
      some none :=
  (C4_cache_append_only.2.1 (fun _ => none) [("A".toList, none)]
    [some "A".toList, none, some "C".toList] "A".toList none rfl).1

/-- C2 (counterexample): each of the unguarded steps of the entry points
propagates its exception instead of completing with partial results: a
failing input read (both functions), a failing `load_cache` (a corrupt
`geocoding_cache.json`), a `save_cache` that raises during the loop, and
a failing final `df.to_csv`. -/
theorem C2_counterexample :
    process_csv none true (some []) demo_geocoder true true = .error () ∧
    process_csv (some ["A".toList]) true none demo_geocoder true true
      = .error () ∧
    process_csv (some ["A".toList]) true (some []) demo_geocoder false true
      = .error () ∧
    process_csv (some ["A".toList]) true (some []) demo_geocoder true false
      = .error () ∧
    process_planning_cases none (some []) (fun _ => none) true true
      = .error () :=
  ⟨rfl, rfl, rfl, rfl, rfl⟩

/-- C2 (amended): exceptions during geocoding are caught and recorded as
null results, and `merge_csv_files` catches every exception (a failing
output write yields `False`, not an exception); but `process_csv` and
`process_planning_cases` guard nothing: `pd.read_csv`, `pd.to_datetime`
(`process_csv` only), `load_cache`, the in-loop `save_cache` calls and
the final `df.to_csv` all propagate their exceptions; only when all of
those succeed does the entry point run to completion. -/
theorem C2_best_effort :
    (∀ (α : Type) (files : List (List Char × Option (List α))),
      (merge_csv_files files false).ret = false) ∧
    (∀ (address : PyObj),
      (get_coordinates (fun _ => .error ()) address).1 = none) ∧
    (∀ (addresses : List (List Char)) (cache0 : Cache) (geocode : Geocoder),
      (process_csv (some addresses) true (some cache0) geocode true true).isOk
        = true) ∧
    (∀ (rows : List (Option (List Char))) (cache0 : Cache)
        (results : List Char → Option (ℚ × ℚ)),
      (process_planning_cases (some rows) (some cache0) results true
        true).isOk = true) := by
  refine ⟨?_, ?_, ?_, ?_⟩
  · intro α files
    unfold merge_csv_files
    by_cases h1 : files.isEmpty = true
    · simp [h1]
    · simp only [Bool.not_eq_true] at h1
      simp only [h1, Bool.false_eq_true, if_false]
      by_cases h2 : (files.filterMap Prod.snd).isEmpty = true
      · simp [h2]
      · simp only [Bool.not_eq_true] at h2
        simp [h2]
  · intro address
    unfold get_coordinates
    rw [geocodeLoop_eq_first_in_box, first_in_box_all_error]
  · intro addresses cache0 geocode
    rfl
  · intro rows cache0 results
    rfl

/-- C2 (witness): the amended theorem applied to a one-row table whose
read, date parse, cache load, cache saves and output write all succeed,
and to a geolocator that always fails. -/
theorem C2_witness :
    (merge_csv_files ([("a.csv".toList, some [(10 : ℕ)])]) false).ret = false ∧
    (get_coordinates (fun _ => .error ()) (.str "X".toList)).1 = none ∧
    (process_csv (some ["A".toList]) true (some []) demo_geocoder true
      true).isOk = true ∧
    (process_planning_cases (some [some "A".toList]) (some [])
      (fun _ => none) true true).isOk = true :=
  ⟨C2_best_effort.1 ℕ [("a.csv".toList, some [10])],
   C2_best_effort.2.1 (.str "X".toList),
   C2_best_effort.2.2.1 ["A".toList] [] demo_geocoder,
   C2_best_effort.2.2.2 [some "A".toList] [] (fun _ => none)⟩

/-- C9 (counterexample): on input `"FIRELAND"` (which mentions IRELAND
inside a longer word) `clean_address` returns `"Fireland, Dublin"`: no
`, IRELAND` is appended, and after title-casing the result does not
contain the word `Ireland` at all. -/
theorem C9_counterexample :
    clean_address (.str "FIRELAND".toList) = "Fireland, Dublin".toList ∧
    containsStr (clean_address (.str "FIRELAND".toList)) "Ireland".toList
      = false := by
  constructor
  · decide
  · decide

/-- C9 (amended): `clean_address` is total, returns `""` for every
non-string input, and for every string input the returned address
mentions Ireland ignoring case: its upper-casing contains `"IRELAND"`
(the code appends `", IRELAND"` before title-casing whenever the
upper-cased address does not already contain it). -/
theorem C9_clean_address_ireland (v : PyObj) :
    (v = PyObj.nonstr → clean_address v = []) ∧
    (∀ s, v = PyObj.str s →
      containsStr (upperStr (clean_address v)) "IRELAND".toList = true) := by
  constructor
  · rintro rfl
    rfl
  · rintro s rfl
    unfold clean_address
    exact contains_upper_title _ (append_ireland_contains _)

/-- C9 (witness): the amended theorem applied to a non-string input and
to the string `"x"`. -/
theorem C9_witness :
    clean_address PyObj.nonstr = [] ∧
    containsStr (upperStr (clean_address (.str "x".toList))) "IRELAND".toList
      = true :=
  ⟨(C9_clean_address_ireland PyObj.nonstr).1 rfl,
   (C9_clean_address_ireland (.str "x".toList)).2 "x".toList rfl⟩
